import Mathlib

/-!
Verification of the build-data pipeline (`scripts/prepare_builds.py` and
`scripts/compute_features.py`).

The Python scripts are shallowly embedded here.  Conventions of the embedding:

* Python floats are modelled by `PyF`: an exact rational (`PyF.fin`) or one of
  the special IEEE values `nan`, `inf`, `-inf`.  Rounding of binary floating
  point is idealized away (arithmetic is exact on `ℚ`), and overflow of
  decimal literals to infinity is not modelled; the special literals
  `nan` / `inf` / `infinity` accepted by Python's `float()` are modelled.
* Strings are processed as `List Char`; only the ASCII fragment of Python's
  whitespace / digit classes is modelled (the repository's CSV data is ASCII).
* `pandas`/`numpy` library calls (`pd.isna`, `np.median`, `rank`, `argsort`,
  `searchsorted`, …) are embedded by functions implementing their documented
  semantics on lists.
* Warnings are modelled as an inductive type carrying the interpolated data
  rather than the literal message strings.
-/

namespace Builds

/-- A Python float value: exact finite rational, or an IEEE special value. -/
inductive PyF where
  | fin : ℚ → PyF
  | nan : PyF
  | inf : PyF
  | ninf : PyF
deriving DecidableEq, Repr

/-- IEEE `<` on Python floats: any comparison with `nan` is false. -/
def pyLt : PyF → PyF → Bool
  | .fin a, .fin b => a < b
  | .nan, _ => false
  | _, .nan => false
  | .ninf, .ninf => false
  | .ninf, _ => true
  | .inf, _ => false
  | .fin _, .inf => true
  | .fin _, .ninf => false

/-- Python `x > y`, i.e. `y < x`. -/
def pyGt (a b : PyF) : Bool := pyLt b a

/-- IEEE `≤` (used only to state claims about parsed intervals). -/
def pyLe : PyF → PyF → Bool
  | .fin a, .fin b => a ≤ b
  | .nan, _ => false
  | _, .nan => false
  | .ninf, _ => true
  | _, .inf => true
  | .inf, .fin _ => false
  | .inf, .ninf => false
  | .fin _, .ninf => false

/-- IEEE addition on Python floats. -/
def pyAdd : PyF → PyF → PyF
  | .fin a, .fin b => .fin (a + b)
  | .nan, _ => .nan
  | _, .nan => .nan
  | .inf, .ninf => .nan
  | .ninf, .inf => .nan
  | .inf, _ => .inf
  | _, .inf => .inf
  | .ninf, _ => .ninf
  | _, .ninf => .ninf

/-- IEEE multiplication on Python floats. -/
def pyMul : PyF → PyF → PyF
  | .fin a, .fin b => .fin (a * b)
  | .nan, _ => .nan
  | _, .nan => .nan
  | .inf, .inf => .inf
  | .inf, .ninf => .ninf
  | .ninf, .inf => .ninf
  | .ninf, .ninf => .inf
  | .inf, .fin b => if b > 0 then .inf else if b < 0 then .ninf else .nan
  | .fin a, .inf => if a > 0 then .inf else if a < 0 then .ninf else .nan
  | .ninf, .fin b => if b > 0 then .ninf else if b < 0 then .inf else .nan
  | .fin a, .ninf => if a > 0 then .ninf else if a < 0 then .inf else .nan

/-- Python `x / 2.0`. -/
def pyHalf : PyF → PyF
  | .fin a => .fin (a / 2)
  | .nan => .nan
  | .inf => .inf
  | .ninf => .ninf

/-- Python `min(a, b)`: returns `b` if `b < a`, else `a`. -/
def pyMin (a b : PyF) : PyF := if pyLt b a then b else a

/-- Python `max(a, b)`: returns `b` if `b > a`, else `a`. -/
def pyMax (a b : PyF) : PyF := if pyLt a b then b else a

/-- Round-half-to-even on integers scaled by `10^2`, as Python's `round(x, 2)`
(idealized to exact decimal arithmetic). -/
def roundHalfEven (q : ℚ) : ℤ :=
  let f := ⌊q⌋
  let r := q - f
  if r < 1/2 then f
  else if 1/2 < r then f + 1
  else if f % 2 = 0 then f else f + 1

/-- Python `round(x, 2)` on an exact rational. -/
def round2 (q : ℚ) : ℚ := (roundHalfEven (q * 100) : ℚ) / 100

/-- Python `round(x, 2)` on a float value (`round(nan, 2) = nan`, etc.). -/
def pyRound2 : PyF → PyF
  | .fin q => .fin (round2 q)
  | .nan => .nan
  | .inf => .inf
  | .ninf => .ninf

/-! ### Character-level string utilities (ASCII fragment) -/

/-- ASCII whitespace as recognized by Python's `str.strip()` and `re` `\s`. -/
def isPyWs (c : Char) : Bool :=
  c = ' ' || c = '\t' || c = '\n' || c = '\x0d' || c = '\x0b' || c = '\x0c'

/-- Python `str.strip()`: drop leading and trailing whitespace. -/
def pyStrip (l : List Char) : List Char :=
  ((l.dropWhile isPyWs).reverse.dropWhile isPyWs).reverse

/-- Python `s.replace(c, "")` for a single character `c` (removes every
occurrence). -/
def removeChar (c : Char) (l : List Char) : List Char := l.filter (· ≠ c)

/-- Value of a digit character. -/
def digitVal (c : Char) : ℕ := c.toNat - '0'.toNat

/-- Numeric value of a list of decimal digit characters (most significant
first), as computed by Python's `int()` / `float()` on the digit run. -/
def charsToNat (ds : List Char) : ℕ := ds.foldl (fun a c => a * 10 + digitVal c) 0

/-- Split a list of characters at the leading run of decimal digits. -/
def takeDigitsRun (l : List Char) : List Char × List Char :=
  (l.takeWhile Char.isDigit, l.dropWhile Char.isDigit)

/-- A run of digits possibly grouped by underscores (Python numeric literals:
an underscore must sit between two digits).  Returns the digits (underscores
removed) and the unconsumed rest. -/
def uDigits : List Char → List Char × List Char
  | [] => ([], [])
  | '_' :: e :: rest =>
      if e.isDigit then
        let (ds, r) := uDigits rest
        (e :: ds, r)
      else ([], '_' :: e :: rest)
  | c :: rest =>
      if c.isDigit then
        let (ds, r) := uDigits rest
        (c :: ds, r)
      else ([], c :: rest)

/-- Does the list start with a decimal digit? -/
def headDigit : List Char → Bool
  | c :: _ => c.isDigit
  | [] => false

/-- The finite part of Python's `float()` grammar (after sign removal):
`digitpart ["." [digitpart]] [exp]`, `"." digitpart [exp]` — the whole input
must be consumed.  Value is computed exactly in `ℚ`. -/
def pyDecimal (l : List Char) : Option ℚ :=
  let (ip, r1) := if headDigit l then uDigits l else ([], l)
  let (hadDot, fp, r2) :=
    match r1 with
    | '.' :: rest => if headDigit rest then
        let (ds, r) := uDigits rest
        (true, ds, r)
      else (true, ([] : List Char), rest)
    | _ => (false, ([] : List Char), r1)
  if ip = [] ∧ fp = [] then none
  else if ¬ hadDot ∧ fp = [] ∧ r1 ≠ r2 then none
  else
    let base : ℚ := (charsToNat ip : ℚ) + (charsToNat fp : ℚ) / 10 ^ fp.length
    match r2 with
    | [] => some base
    | e :: r3 =>
      if e = 'e' ∨ e = 'E' then
        let (eneg, r4) :=
          match r3 with
          | '-' :: r => (true, r)
          | '+' :: r => (false, r)
          | r => (false, r)
        if headDigit r4 then
          let (eds, r5) := uDigits r4
          if r5 = [] then
            let ex : ℤ := if eneg then -(charsToNat eds : ℤ) else (charsToNat eds : ℤ)
            some (base * (10 : ℚ) ^ ex)
          else none
        else none
      else none

/-- Python `float(s)`: strip whitespace, optional sign, then either one of the
special literals `inf` / `infinity` / `nan` (case-insensitive) or a finite
decimal literal.  `none` models a raised `ValueError`. -/
def pyFloatOfChars (l : List Char) : Option PyF :=
  let t := pyStrip l
  let (neg, u) :=
    match t with
    | '-' :: r => (true, r)
    | '+' :: r => (false, r)
    | r => (false, r)
  let low := u.map Char.toLower
  if low = ['i', 'n', 'f'] ∨ low = ['i', 'n', 'f', 'i', 'n', 'i', 't', 'y'] then
    some (if neg then .ninf else .inf)
  else if low = ['n', 'a', 'n'] then some .nan
  else
    match pyDecimal u with
    | some q => some (.fin (if neg then -q else q))
    | none => none

/-! ### The regular expressions of `prepare_builds.py`

`NUMERIC_RE = [-+]?\d+(?:\.\d+)?` and `FT_IN_RE = (\d+)\s*'\s*(\d+)`,
modelled with `re.search` / `re.findall` semantics (leftmost match, greedy
digit runs; `float()` of a match of `NUMERIC_RE` never fails, so the value is
computed during the match). -/

/-- Strip an optional leading sign, reporting whether it was `-`. -/
def readSign : List Char → Bool × List Char
  | '-' :: r => (true, r)
  | '+' :: r => (false, r)
  | r => (false, r)

theorem readSign_length (l : List Char) : (readSign l).2.length ≤ l.length := by
  unfold readSign
  split <;> simp

/-- The sign factor contributed by a leading `-`. -/
def sgnQ (neg : Bool) : ℚ := if neg then -1 else 1

/-- Match `\d+(?:\.\d+)?` at the head of the (sign-stripped) input. -/
def numericMatchBody (neg : Bool) (r : List Char) : Option (ℚ × List Char) :=
  if headDigit r then
    let ds := r.takeWhile Char.isDigit
    let r1 := r.dropWhile Char.isDigit
    let sgn : ℚ := sgnQ neg
    match r1 with
    | '.' :: r2 =>
      if headDigit r2 then
        some (sgn * ((charsToNat ds : ℚ) +
          (charsToNat (r2.takeWhile Char.isDigit) : ℚ) /
            10 ^ (r2.takeWhile Char.isDigit).length),
          r2.dropWhile Char.isDigit)
      else some (sgn * (charsToNat ds : ℚ), '.' :: r2)
    | _ => some (sgn * (charsToNat ds : ℚ), r1)
  else none

/-- Try to match `NUMERIC_RE` at the head of the list; on success return the
value of the matched text and the rest of the input. -/
def numericMatchAt (l : List Char) : Option (ℚ × List Char) :=
  numericMatchBody (readSign l).1 (readSign l).2

theorem length_dropWhile_lt_of_headDigit {r : List Char} (h : headDigit r = true) :
    (r.dropWhile Char.isDigit).length < r.length := by
  cases r with
  | nil => simp [headDigit] at h
  | cons c t =>
    simp only [headDigit] at h
    rw [List.dropWhile_cons_of_pos (by simp [h])]
    exact Nat.lt_succ_of_le (List.dropWhile_sublist _).length_le

theorem numericMatchBody_rest_lt {neg : Bool} {r : List Char} {q : ℚ}
    {rest : List Char} (h : numericMatchBody neg r = some (q, rest)) :
    rest.length < r.length := by
  unfold numericMatchBody at h
  split at h
  case isTrue hd =>
    have h1 : (r.dropWhile Char.isDigit).length < r.length :=
      length_dropWhile_lt_of_headDigit hd
    dsimp only at h
    split at h
    case h_1 r2 heq =>
      split at h
      case isTrue hd2 =>
        cases h
        have h2 : (r2.dropWhile Char.isDigit).length ≤ r2.length :=
          (List.dropWhile_sublist _).length_le
        have h3 : r2.length < (r.dropWhile Char.isDigit).length := by
          rw [heq]; simp
        omega
      case isFalse =>
        cases h
        rw [← heq]
        exact h1
    case h_2 =>
      cases h
      exact h1
  case isFalse => exact absurd h (by simp)

theorem numericMatchAt_rest_lt {l : List Char} {q : ℚ} {rest : List Char}
    (h : numericMatchAt l = some (q, rest)) : rest.length < l.length :=
  lt_of_lt_of_le (numericMatchBody_rest_lt h) (readSign_length l)

/-- `NUMERIC_RE.search`: value of the leftmost match, if any. -/
def numericSearchVal : List Char → Option ℚ
  | [] => none
  | c :: rest =>
    match numericMatchAt (c :: rest) with
    | some (q, _) => some q
    | none => numericSearchVal rest

/-- `NUMERIC_RE.findall`: values of all leftmost non-overlapping matches. -/
def numericFindAllVals (l : List Char) : List ℚ :=
  match l with
  | [] => []
  | c :: rest =>
    match hm : numericMatchAt (c :: rest) with
    | some (q, r) => q :: numericFindAllVals r
    | none => numericFindAllVals rest
termination_by l.length
decreasing_by
  · exact numericMatchAt_rest_lt hm
  · simp

/-- Match `FT_IN_RE = (\d+)\s*'\s*(\d+)` at the head of the list, returning
the two captured digit groups as numbers. -/
def ftinMatchAt (l : List Char) : Option (ℕ × ℕ) :=
  if headDigit l then
    let ds := l.takeWhile Char.isDigit
    let r1 := (l.dropWhile Char.isDigit).dropWhile isPyWs
    match r1 with
    | '\'' :: r2 =>
      let r3 := r2.dropWhile isPyWs
      if headDigit r3 then
        some (charsToNat ds, charsToNat (r3.takeWhile Char.isDigit))
      else none
    | _ => none
  else none

/-- `FT_IN_RE.search`: leftmost match, if any. -/
def ftinSearch : List Char → Option (ℕ × ℕ)
  | [] => none
  | c :: rest =>
    match ftinMatchAt (c :: rest) with
    | some m => some m
    | none => ftinSearch rest

/-! ### `prepare_builds.py` — token and field parsing -/

/-- `parse_number_token`: strip, remove `%` and straight/smart quotes, strip
again, try a direct `float()` parse, else fall back to the first
`NUMERIC_RE` match (whose `float()` conversion never fails, so its value is
returned directly). -/
def parse_number_token (token : List Char) : Option PyF :=
  let t := pyStrip token
  if t = [] then none
  else
    let t := removeChar '%' t
    let t := removeChar '\"' t
    let t := removeChar '”' t
    let t := removeChar '“' t
    let t := pyStrip t
    match pyFloatOfChars t with
    | some v => some v
    | none =>
      match numericSearchVal t with
      | some q => some (.fin q)
      | none => none

/-- `ftin_to_inches`: first `FT_IN_RE` match, converted to total inches.
(The `int()` conversions of the captured digit groups cannot fail, so the
`try/except` in the source is dead.) -/
def ftin_to_inches (s : List Char) : Option ℚ :=
  if s = [] then none
  else
    match ftinSearch s with
    | some fi => some ((fi.1 * 12 + fi.2 : ℕ) : ℚ)
    | none => none

/-- `s.replace("–", "-").replace("—", "-")`: single-character replacements. -/
def dashNormalize (l : List Char) : List Char :=
  (l.map fun c => if c = '–' then '-' else c).map fun c => if c = '—' then '-' else c

/-- Does the list continue a `" to "` occurrence begun by a space? -/
def spacedToHit : List Char → Bool
  | 't' :: 'o' :: ' ' :: _ => true
  | _ => false

/-- `s.replace(" to ", " - ")` (leftmost, non-overlapping). -/
def replaceSpacedTo : List Char → List Char
  | [] => []
  | c :: rest =>
    if c = ' ' && spacedToHit rest then ' ' :: '-' :: ' ' :: replaceSpacedTo (rest.drop 3)
    else c :: replaceSpacedTo rest
termination_by l => l.length
decreasing_by
  · simp [List.length_drop]
    omega
  · simp

/-- Does the list continue a `"to"` occurrence begun by a `'t'`? -/
def toHit : List Char → Bool
  | 'o' :: _ => true
  | _ => false

/-- `s.replace("to", " - ")` (leftmost, non-overlapping). -/
def replaceTo : List Char → List Char
  | [] => []
  | c :: rest =>
    if c = 't' && toHit rest then ' ' :: '-' :: ' ' :: replaceTo (rest.drop 1)
    else c :: replaceTo rest
termination_by l => l.length
decreasing_by
  · simp [List.length_drop]
    omega
  · simp

/-- The separator normalization of `parse_range_or_single`. -/
def normalizeSeps (l : List Char) : List Char :=
  replaceTo (replaceSpacedTo (dashNormalize l))

/-- Is the character one of the three dash variants of `re.split(r"[-–—]")`? -/
def isDash (c : Char) : Bool := c = '-' || c = '–' || c = '—'

/-- `re.split(r"[-–—]", s)`: split at every dash character. -/
def splitDashes : List Char → List (List Char)
  | [] => [[]]
  | c :: rest =>
    if isDash c then [] :: splitDashes rest
    else
      match splitDashes rest with
      | seg :: segs => (c :: seg) :: segs
      | [] => [[c]]

/-- `[p.strip() for p in re.split(...) if p.strip() != ""]`. -/
def partsOf (s_clean : List Char) : List (List Char) :=
  ((splitDashes s_clean).map pyStrip).filter (· ≠ [])

/-- A parse warning, carrying the data interpolated into the message. -/
inductive Warn where
  | unparseableFtin (part : List Char)
  | ftinParseError
  | unparseableNumeric (part : List Char)
  | interpretedKg (s : List Char)
  | weightSuspicious (v : PyF) (s : List Char)
  | heightMinSuspicious (v : PyF) (s : List Char)
  | heightMaxSuspicious (v : PyF) (s : List Char)
deriving DecidableEq, Repr

/-- Result of a field parse: `(min, max, median, warnings)`. -/
structure Parsed where
  mn : Option PyF
  mx : Option PyF
  med : Option PyF
  warns : List Warn
deriving DecidableEq, Repr

/-- The all-`None` result. -/
def Parsed.empty : Parsed := ⟨none, none, none, []⟩

/-- One step of the numeric loop of `parse_range_or_single`: the token parse
of a part, with the (dead, see `parse_number_token`) second `NUMERIC_RE`
retry on the raw part. -/
def partNum (p : List Char) : Option PyF :=
  match parse_number_token p with
  | some n => some n
  | none =>
    match numericSearchVal p with
    | some q => some (.fin q)
    | none => none

/-- The numeric loop over all parts: collected values and warnings, in order. -/
def collectNums (parts : List (List Char)) : List PyF × List Warn :=
  (parts.filterMap partNum,
   parts.filterMap fun p => if partNum p = none then some (.unparseableNumeric p) else none)

/-- The multiplier `0.3937007874` (cm → inches). -/
def cmToIn : ℚ := 3937007874 / 10 ^ 10

/-- The multiplier `2.2046226218` (kg → lb). -/
def kgToLb : ℚ := 22046226218 / 10 ^ 10

/-- The numeric tail of `parse_range_or_single` (reached when no feet-inches
branch returned), carrying warnings `w0` accumulated before it. -/
def numericBranch (parts : List (List Char)) (s_clean : List Char)
    (treat_as_cm_if_large : Bool) (w0 : List Warn) : Parsed :=
  let step := collectNums parts
  let warns := w0 ++ step.2
  let nums := if step.1 = [] then (numericFindAllVals s_clean).map .fin else step.1
  match nums with
  | [] => ⟨none, none, none, warns⟩
  | [val] =>
    if treat_as_cm_if_large && pyGt val (.fin 100) then
      let inches := pyMul val (.fin cmToIn)
      ⟨some inches, some inches, some inches, warns⟩
    else ⟨some val, some val, some val, warns⟩
  | a :: b :: _ =>
    let mn := pyMin a b
    let mx := pyMax a b
    let (mn, mx) :=
      if treat_as_cm_if_large && (pyGt mn (.fin 100) || pyGt mx (.fin 100)) then
        (pyMul mn (.fin cmToIn), pyMul mx (.fin cmToIn))
      else (mn, mx)
    ⟨some mn, some mx, some (pyHalf (pyAdd mn mx)), warns⟩

/-- The feet-inches branch of `parse_range_or_single` (taken when `FT_IN_RE`
matches somewhere in `s_clean`); falls through to the numeric tail when no
part yields a feet-inches value. -/
def ftBranch (parts : List (List Char)) (s_clean : List Char)
    (treat_as_cm_if_large : Bool) : Parsed :=
  if 2 ≤ parts.length then
    let pairs := (parts.take 2).map fun p => (p, ftin_to_inches p)
    let ws := pairs.filterMap fun pr =>
      if pr.2 = none then some (Warn.unparseableFtin pr.1) else none
    let vals := pairs.filterMap (·.2)
    match vals with
    | [v] => ⟨some (.fin v), some (.fin v), some (.fin v), ws⟩
    | [v₁, v₂] =>
      let mn := min v₁ v₂
      let mx := max v₁ v₂
      ⟨some (.fin mn), some (.fin mx), some (.fin ((mn + mx) / 2)), ws⟩
    | _ => numericBranch parts s_clean treat_as_cm_if_large ws
  else
    match parts with
    | p :: _ =>
      match ftin_to_inches p with
      | some v => ⟨some (.fin v), some (.fin v), some (.fin v), []⟩
      | none => numericBranch parts s_clean treat_as_cm_if_large []
    | [] =>
      -- `parts[0]` raises `IndexError`, caught as a "ft/in parse error" warning
      numericBranch parts s_clean treat_as_cm_if_large [.ftinParseError]

/-- `parse_range_or_single` on an already-stringified value (`pd.isna` is
always false on the strings handed over by `main`). -/
def parse_range_core (s0 : List Char) (treat_as_cm_if_large : Bool) : Parsed :=
  let s := pyStrip s0
  if s = [] then .empty
  else
    let s_clean := normalizeSeps s
    let parts := partsOf s_clean
    match ftinSearch s_clean with
    | some _ => ftBranch parts s_clean treat_as_cm_if_large
    | none => numericBranch parts s_clean treat_as_cm_if_large []

/-- `parse_range_or_single` on a raw string field. -/
def parse_range_or_single (raw : String) (treat_as_cm_if_large : Bool) : Parsed :=
  parse_range_core raw.data treat_as_cm_if_large

/-- The two plausibility warnings appended by `parse_height`. -/
def heightWindowWarns (mn mx : Option PyF) (s : List Char) : List Warn :=
  (match mn with
   | some v => if pyLt v (.fin 20) || pyGt v (.fin 120) then [.heightMinSuspicious v s] else []
   | none => []) ++
  (match mx with
   | some v => if pyLt v (.fin 20) || pyGt v (.fin 120) then [.heightMaxSuspicious v s] else []
   | none => [])

/-- `parse_height`: range parse with the centimeter heuristic enabled, then
plausibility flags for values outside the 20–120 inch window. -/
def parse_height (raw : String) : Parsed :=
  let s := pyStrip raw.data
  if s = [] then .empty
  else
    let r := parse_range_core s true
    ⟨r.mn, r.mx, r.med, r.warns ++ heightWindowWarns r.mn r.mx s⟩

/-- `parse_weight`: range parse without the centimeter heuristic, then the
asymmetric kilograms heuristic (minimum `< 90` ⇒ convert the whole interval
to pounds; minimum `> 400` ⇒ flag only). -/
def parse_weight (raw : String) : Parsed :=
  let s := pyStrip raw.data
  if s = [] then .empty
  else
    let r := parse_range_core s false
    match r.mn with
    | some mn =>
      if pyLt mn (.fin 90) || pyGt mn (.fin 400) then
        if pyLt mn (.fin 90) then
          let mn_lbs := pyMul mn (.fin kgToLb)
          let mx_lbs := match r.mx with
            | some mx => pyMul mx (.fin kgToLb)
            | none => mn_lbs
          ⟨some mn_lbs, some mx_lbs, some (pyHalf (pyAdd mn_lbs mx_lbs)),
            r.warns ++ [.interpretedKg s]⟩
        else ⟨r.mn, r.mx, r.med, r.warns ++ [.weightSuspicious mn s]⟩
      else ⟨r.mn, r.mx, r.med, r.warns⟩
    | none => ⟨r.mn, r.mx, r.med, r.warns⟩

/-- `parse_stat`: generic attribute parse, no unit conversion. -/
def parse_stat (raw : String) : Parsed := parse_range_or_single raw false

/-- The canonical-table cell written by `main` for a stat column:
`None if s_med is None else round(float(s_med), 2)`. -/
def canonicalStatMed (raw : String) : Option PyF := (parse_stat raw).med.map pyRound2

/-! ### Spec-side definitions for the Range Parser claims (C5, C6, C9) -/

/-- The Range Parser as worded by claim C6: after separator normalization,
a case analysis on the numerically valid parts — zero valid parts give
`(None, None, None)`, one valid part `V` gives `(V, V, V)`, two or more give
`(min, max, (min+max)/2)` of the first two, with a warning per part that
failed to parse. -/
def specRangeParse (raw : String) : Parsed :=
  let s := pyStrip raw.data
  if s = [] then .empty
  else
    let parts := partsOf (normalizeSeps s)
    let valids := parts.filterMap partNum
    let ws := parts.filterMap fun p =>
      if partNum p = none then some (Warn.unparseableNumeric p) else none
    match valids with
    | [] => ⟨none, none, none, ws⟩
    | [v] => ⟨some v, some v, some v, ws⟩
    | a :: b :: _ =>
      ⟨some (pyMin a b), some (pyMax a b),
       some (pyHalf (pyAdd (pyMin a b) (pyMax a b))), ws⟩

/-- The `(min, max, median)` part of a parse result. -/
def tripleOf (t : Parsed) : Option PyF × Option PyF × Option PyF := (t.mn, t.mx, t.med)

/-- The feet-inches interpretation as worded by the spec: each range endpoint
(the first two dash-separated parts) is parsed as feet/inches and converted
to total inches, then the same zero/one/two case analysis applies. -/
def specFtTriple (raw : String) : Option PyF × Option PyF × Option PyF :=
  let parts := partsOf (normalizeSeps (pyStrip raw.data))
  let vals := (parts.take 2).filterMap ftin_to_inches
  match vals with
  | [] => (none, none, none)
  | [v] => (some (.fin v), some (.fin v), some (.fin v))
  | v₁ :: v₂ :: _ =>
    (some (.fin (min v₁ v₂)), some (.fin (max v₁ v₂)),
     some (.fin ((min v₁ v₂ + max v₁ v₂) / 2)))

/-- Does the feet-inches branch of `parse_range_or_single` actually produce
the result (rather than falling through to numeric parsing)?  True when the
pattern is detected and, for two or more parts, at least one of the first
two parts parses as feet-inches — or, for a single part, that part does. -/
def ftApplies (raw : String) : Bool :=
  let s := pyStrip raw.data
  let s_clean := normalizeSeps s
  let parts := partsOf s_clean
  match ftinSearch s_clean with
  | none => false
  | some _ =>
    if 2 ≤ parts.length then
      decide ((parts.take 2).filterMap ftin_to_inches ≠ [])
    else
      match parts with
      | p :: _ => (ftin_to_inches p).isSome
      | [] => false

/-! ### `compute_features.py` — weighted median

The canonical table read back by `compute_features.py` stores a missing
median as `NaN`; `weighted_median` masks those out with `np.isnan`, so a
value is modelled as `Option ℚ` with `none` for `NaN`. -/

/-- The `(value, weight)` list after the `~np.isnan(v)` mask: missing values
are dropped together with their weights. -/
def presentPairs (values : List (Option ℚ)) (weights : List ℚ) : List (ℚ × ℚ) :=
  (values.zip weights).filterMap fun vw => vw.1.map fun x => (x, vw.2)

/-- Insert a value/weight pair into a list sorted by value. -/
def insertPair (x : ℚ × ℚ) : List (ℚ × ℚ) → List (ℚ × ℚ)
  | [] => [x]
  | y :: t => if x.1 ≤ y.1 then x :: y :: t else y :: insertPair x t

/-- Sort value/weight pairs by value (`np.argsort` on the values; tie order
among equal values cannot affect which value is selected). -/
def sortPairs : List (ℚ × ℚ) → List (ℚ × ℚ)
  | [] => []
  | x :: t => insertPair x (sortPairs t)

/-- Insert a rational into a sorted list. -/
def insertQ (x : ℚ) : List ℚ → List ℚ
  | [] => [x]
  | y :: t => if x ≤ y then x :: y :: t else y :: insertQ x t

/-- Ascending sort of rationals. -/
def sortQ : List ℚ → List ℚ
  | [] => []
  | x :: t => insertQ x (sortQ t)

/-- `np.median` on a nonempty list: middle element of the sorted list, or the
mean of the two middle elements. -/
def npMedian (l : List ℚ) : ℚ :=
  let s := sortQ l
  if l.length % 2 = 1 then s.getD (l.length / 2) 0
  else (s.getD (l.length / 2 - 1) 0 + s.getD (l.length / 2) 0) / 2

/-- `np.cumsum` starting from a partial sum `acc`. -/
def cumsumFrom (acc : ℚ) : List ℚ → List ℚ
  | [] => []
  | w :: ws => (acc + w) :: cumsumFrom (acc + w) ws

/-- `np.searchsorted(c, x, side="left")` on a sorted list: the first index
whose element is `≥ x` (or the length if none is). -/
def searchsortedLeft (c : List ℚ) (x : ℚ) : ℕ :=
  match c with
  | [] => 0
  | a :: t => if x ≤ a then 0 else searchsortedLeft t x + 1

/-- `weighted_median(values, weights)` of `compute_features.py`.  The
`math.isnan(w_sum)` disjunct of the degenerate-sum guard is dropped: weights
are exact rationals here. -/
def weighted_median (values : List (Option ℚ)) (weights : List ℚ) : Option ℚ :=
  if values.length = 0 then none
  else
    let pairs := presentPairs values weights
    if pairs = [] then none
    else
      let pos := pairs.filter fun p => decide (0 < p.2)
      if pos = [] then some (npMedian (pairs.map Prod.fst))
      else
        let w_sum := (pos.map Prod.snd).sum
        if w_sum ≤ 0 then some (npMedian (pos.map Prod.fst))
        else
          let normed := pos.map fun p => (p.1, p.2 / w_sum)
          let sorted := sortPairs normed
          let cums := cumsumFrom 0 (sorted.map Prod.snd)
          let idx := min (searchsortedLeft cums (1/2)) (sorted.length - 1)
          some ((sorted.map Prod.fst).getD idx 0)

/-! ### `compute_features.py` — composites, percentiles, roles, outputs -/

/-- `COMPOSITE_SPECS`: composite name, contributing attributes, weights, in
declaration order. -/
def COMPOSITE_SPECS : List (String × List String × List ℚ) :=
  [("finishing",
    (["close_shot", "driving_layup", "driving_dunk", "standing_dunk", "post_control"],
     [22/100, 18/100, 25/100, 15/100, 20/100])),
   ("shooting",
    (["midrange_shot", "threepoint_shot", "free_throw"], [4/10, 45/100, 15/100])),
   ("playmaking",
    (["pass_accuracy", "ball_handle", "speed_with_ball"], [4/10, 35/100, 25/100])),
   ("defense",
    (["interior_defense", "perimeter_defense", "steal", "block", "defensive_rebound"],
     [25/100, 25/100, 15/100, 15/100, 2/10])),
   ("athleticism",
    (["speed", "agility", "strength", "vertical"], [25/100, 25/100, 2/10, 3/10]))]

/-- `list(COMPOSITE_SPECS.keys())`: the fixed composite declaration order. -/
def COMP_NAMES : List String := COMPOSITE_SPECS.map Prod.fst

/-- The non-missing composite scores of a population (a `rank` denominator
counts exactly these). -/
def valsOf (rows : List (String × Option ℚ)) : List ℚ := rows.filterMap (·.2)

/-- The non-missing scores of the rows sharing a `position` value. -/
def groupValsOf (rows : List (String × Option ℚ)) (pos : String) : List ℚ :=
  (rows.filter fun r => decide (r.1 = pos)).filterMap (·.2)

/-- `rank(method="average")` of value `v` within population `l`: tied values
share the mean of their rank positions. -/
def avgRank (l : List ℚ) (v : ℚ) : ℚ :=
  (l.countP fun x => decide (x < v) : ℚ) + ((l.count v : ℚ) + 1) / 2

/-- `rank(method="average", pct=True) * 100`: percent rank before rounding. -/
def pctRank (l : List ℚ) (v : ℚ) : ℚ := 100 * avgRank l v / l.length

/-- `df[comp].rank(method="average", pct=True) * 100`, rounded to 2 decimals:
the global percentile column.  A missing score ranks as missing and is
excluded from every denominator. -/
def globalPcts (rows : List (String × Option ℚ)) : List (Option ℚ) :=
  rows.map fun r => r.2.map fun v => round2 (pctRank (valsOf rows) v)

/-- `df.groupby("position")[comp].rank(method="average", pct=True) * 100`,
rounded to 2 decimals: the per-position percentile column. -/
def posPcts (rows : List (String × Option ℚ)) : List (Option ℚ) :=
  rows.map fun r => r.2.map fun v => round2 (pctRank (groupValsOf rows r.1) v)

/-- `df[comps].max(axis=1)` for one row: `NaN`-skipping maximum, `NaN` when
every entry is missing. -/
def pandasRowMax : List (Option ℚ) → Option ℚ
  | [] => none
  | none :: t => pandasRowMax t
  | some v :: t =>
    match pandasRowMax t with
    | none => some v
    | some m => some (max v m)

/-- The scan of `pick_role`: first composite (in declaration order) whose
value equals the row maximum, capitalized. -/
def pickRole : List (String × Option ℚ) → ℚ → String
  | [], _ => ""
  | (n, o) :: rest, m => if o = some m then n.capitalize else pickRole rest m

/-- `primary_role` for one row: `(primary_role_score, primary_role)`; an
all-missing row gets `(NaN, "")`. -/
def primary_role (scores : List (Option ℚ)) : Option ℚ × String :=
  match pandasRowMax scores with
  | none => (none, "")
  | some m => (some m, pickRole (COMP_NAMES.zip scores) m)

/-- `save_outputs` of `compute_features.py`, abstracted over the file system:
the four existence flags say which output files already exist.  `none` models
the `FileExistsError` abort (raised before any write); `some` lists the
artifacts written, in order. -/
def save_outputs (csvE pklE defsE repE force : Bool) : Option (List String) :=
  if (csvE || pklE || defsE || repE) && !force then none
  else
    some ["builds_features.csv", "builds_features.pkl",
          "feature_definitions.json", "feature_report.json"]

/-- The output step of `prepare_builds.main`, abstracted the same way: it
performs no existence check and has no overwrite option, writing its three
artifacts unconditionally. -/
def prepare_builds_write (csvE pklE repE : Bool) : Option (List String) :=
  some ["builds_canonical.csv", "builds_canonical.pkl", "parsing_report.json"]

/-! ### Spec-side definitions

These follow the words of the specification / claims, to be compared with the
definitions translated from the source. -/

/-- Spec wording (C1): "returns the value at the first position where the
cumulative normalized weight reaches at least 0.5" (falling back to the last
value; the cumulative mass of normalized weights reaches 1, so the fallback
is never taken). -/
def specSelectAtHalf (acc : ℚ) : List (ℚ × ℚ) → ℚ
  | [] => 0
  | (v, w) :: rest =>
    if 1/2 ≤ acc + w then v
    else
      match rest with
      | [] => v
      | r :: rs => specSelectAtHalf (acc + w) (r :: rs)

/-- The weighted median as worded by the claim C1: drop missing values with
their weights (→ `none` when nothing remains), fall back to the unweighted
median when no remaining weight is positive, otherwise normalize the
remaining positive weights to sum to 1, sort values ascending, and select at
cumulative mass ≥ 0.5. -/
def specWeightedMedian (values : List (Option ℚ)) (weights : List ℚ) : Option ℚ :=
  let contributing := presentPairs values weights
  if contributing = [] then none
  else
    let positives := contributing.filter fun p => decide (0 < p.2)
    if positives = [] then some (npMedian (contributing.map Prod.fst))
    else
      let total := (positives.map Prod.snd).sum
      let normalized := positives.map fun p => (p.1, p.2 / total)
      some (specSelectAtHalf 0 (sortPairs normalized))

/-! ### Helper lemmas -/

theorem cumsumFrom_cons (acc w : ℚ) (ws : List ℚ) :
    cumsumFrom acc (w :: ws) = (acc + w) :: cumsumFrom (acc + w) ws := rfl

theorem searchsortedLeft_cons (a : ℚ) (t : List ℚ) (x : ℚ) :
    searchsortedLeft (a :: t) x = if x ≤ a then 0 else searchsortedLeft t x + 1 := rfl

theorem specSelectAtHalf_cons₂ (acc v w : ℚ) (q : ℚ × ℚ) (ts : List (ℚ × ℚ)) :
    specSelectAtHalf acc ((v, w) :: q :: ts) =
      if 1/2 ≤ acc + w then v else specSelectAtHalf (acc + w) (q :: ts) := rfl

/-- Walking to the first cumulative mass ≥ 0.5 agrees with
`searchsorted`-then-clamp indexing on the cumulative-sum array. -/
theorem specSelectAtHalf_eq_clamped (ps : List (ℚ × ℚ)) :
    ∀ acc : ℚ, ps ≠ [] →
      specSelectAtHalf acc ps =
        (ps.map Prod.fst).getD
          (min (searchsortedLeft (cumsumFrom acc (ps.map Prod.snd)) (1/2))
            (ps.length - 1)) 0 := by
  induction ps with
  | nil => intro acc h; exact absurd rfl h
  | cons p t ih =>
    intro acc _
    obtain ⟨v, w⟩ := p
    cases t with
    | nil =>
      show (if 1/2 ≤ acc + w then v else v) = _
      rw [List.map_cons, List.map_nil, List.map_cons, List.map_nil,
        cumsumFrom_cons, searchsortedLeft_cons]
      by_cases hle : (1 : ℚ)/2 ≤ acc + w
      · rw [if_pos hle, if_pos hle]
        rfl
      · rw [if_neg hle, if_neg hle]
        rfl
    | cons q ts =>
      rw [specSelectAtHalf_cons₂]
      simp only [List.map_cons]
      rw [cumsumFrom_cons, searchsortedLeft_cons]
      by_cases hle : (1 : ℚ)/2 ≤ acc + w
      · rw [if_pos hle, if_pos hle]
        rfl
      · rw [if_neg hle, if_neg hle, ih (acc + w) (List.cons_ne_nil q ts)]
        have hlen : ((v, w) :: q :: ts).length - 1 = ts.length + 1 := by
          simp
        rw [hlen,
          show ts.length + 1 = (q :: ts).length - 1 + 1 from by simp,
          Nat.succ_min_succ, List.getD_cons_succ]
        simp only [List.map_cons]

/-- Members of the positive-weight filtered list have positive weight, so the
weight sum is positive (the `w_sum <= 0` fallback of `weighted_median` is
dead code). -/
theorem pos_weight_sum_pos (pairs : List (ℚ × ℚ))
    (h : pairs.filter (fun p => decide (0 < p.2)) ≠ []) :
    0 < ((pairs.filter fun p => decide (0 < p.2)).map Prod.snd).sum := by
  apply List.sum_pos
  · intro x hx
    obtain ⟨p, hp, rfl⟩ := List.mem_map.mp hx
    have := List.of_mem_filter hp
    simpa using this
  · simpa using h

theorem length_insertPair (x : ℚ × ℚ) (l : List (ℚ × ℚ)) :
    (insertPair x l).length = l.length + 1 := by
  induction l with
  | nil => rfl
  | cons y t ih =>
    unfold insertPair
    split
    · rfl
    · simp [ih]

theorem length_sortPairs (l : List (ℚ × ℚ)) : (sortPairs l).length = l.length := by
  induction l with
  | nil => rfl
  | cons x t ih => simp [sortPairs, length_insertPair, ih]

/-! ### Claim C1 -/

/-- **C1.**  For every record and composite definition, the weighted median
of the Composite Scorer first drops contributing attributes whose value is
missing along with their weights; if no attributes remain it returns `None`;
if the remaining weights are all non-positive (so that dropping non-positive
weights leaves nothing) it returns the unweighted median of the remaining
values; otherwise it normalizes the remaining positive weights to sum to 1,
sorts the values ascending, and returns the value at the first position where
the cumulative normalized weight reaches at least 0.5 — exact ties at the 0.5
boundary select the lower value, and no interpolation is ever performed.
Stated as: `weighted_median` (translated from `compute_features.py`) agrees
with `specWeightedMedian` (written from the claim's words) on every
equal-length input. -/
theorem C1_weighted_median_follows_spec (values : List (Option ℚ)) (weights : List ℚ)
    (h : values.length = weights.length) :
    weighted_median values weights = specWeightedMedian values weights := by
  clear h
  unfold weighted_median specWeightedMedian
  by_cases h0 : values.length = 0
  · have hv : values = [] := List.length_eq_zero.mp h0
    subst hv
    simp [presentPairs]
  · rw [if_neg h0]
    dsimp only
    by_cases hp : presentPairs values weights = []
    · rw [if_pos hp, if_pos hp]
    · rw [if_neg hp, if_neg hp]
      by_cases hpos : (presentPairs values weights).filter (fun p => decide (0 < p.2)) = []
      · rw [if_pos hpos, if_pos hpos]
      · rw [if_neg hpos, if_neg hpos,
          if_neg (not_le.mpr (pos_weight_sum_pos _ hpos))]
        have hne : sortPairs
            (((presentPairs values weights).filter fun p => decide (0 < p.2)).map
              fun p => (p.1, p.2 /
                (((presentPairs values weights).filter fun p => decide (0 < p.2)).map
                  Prod.snd).sum)) ≠ [] := by
          intro hcon
          apply hpos
          have := congrArg List.length hcon
          rw [length_sortPairs, List.length_map] at this
          exact List.length_eq_zero.mp this
        rw [specSelectAtHalf_eq_clamped _ 0 hne]

/-- Witness for C1: the spec's own worked example — weights
`[0.5, 0.3, 0.2]` over `[10, 20, 30]` with the `20` entry missing — where
both sides evaluate to `10`. -/
theorem C1_witness :
    ([some 10, none, some 30] : List (Option ℚ)).length =
      ([1/2, 3/10, 1/5] : List ℚ).length ∧
    weighted_median [some 10, none, some 30] [1/2, 3/10, 1/5] =
      specWeightedMedian [some 10, none, some 30] [1/2, 3/10, 1/5] ∧
    weighted_median [some 10, none, some 30] [1/2, 3/10, 1/5] = some 10 :=
  ⟨rfl, C1_weighted_median_follows_spec _ _ rfl, by with_unfolding_all decide⟩

/-! ### Claim C3 -/

/-- **C3** (code bug).  The spec's invariant says every numeric field of a
canonical record is `None` or a finite float, with NaN never stored.  But
`parse_number_token` delegates to Python's `float()`, which accepts the
literal `"NAN"` (pandas' default NA filter catches `"nan"`/`"NaN"` but not
`"NAN"`, so the string reaches the parser), and the resulting NaN flows
through `parse_range_or_single` — NaN fails every comparison, so no branch
filters it — and `round(nan, 2)` into the canonical table.  This theorem
evaluates the embedded pipeline at the failing input. -/
theorem C3_nan_reaches_canonical_table :
    canonicalStatMed "NAN" = some PyF.nan ∧ parse_number_token ['N', 'A', 'N'] = some PyF.nan := by
  constructor <;> with_unfolding_all rfl

/-! ### Claim C4 -/

/-- **C4** (counterexample).  The claim says the idempotency guard covers the
canonical-table outputs as well, but `prepare_builds.main` writes
`builds_canonical.csv` / `.pkl` / `parsing_report.json` unconditionally (the
script has no overwrite option and performs no existence check — its
docstring even says "Idempotent: overwrites outputs on each run").  With all
three outputs already existing, the run still writes instead of aborting. -/
theorem C4_counterexample :
    prepare_builds_write true true true ≠ none ∧
    prepare_builds_write true true true =
      some ["builds_canonical.csv", "builds_canonical.pkl", "parsing_report.json"] := by
  constructor <;> with_unfolding_all decide

/-- **C4** (amended).  The idempotency guard exists only in
`compute_features.save_outputs`: without `--force` it aborts (before writing
anything) exactly when one of its four outputs already exists, and with
`--force` it never aborts; the canonical-table writer of `prepare_builds`
never aborts, overwriting unconditionally. -/
theorem C4_guard_features_only :
    (∀ c p d r : Bool,
      (save_outputs c p d r false = none ↔ (c = true ∨ p = true ∨ d = true ∨ r = true))) ∧
    (∀ c p d r : Bool, save_outputs c p d r true ≠ none) ∧
    (∀ c p d r f : Bool, save_outputs c p d r f ≠ none →
      save_outputs c p d r f =
        some ["builds_features.csv", "builds_features.pkl",
              "feature_definitions.json", "feature_report.json"]) ∧
    (∀ c p r : Bool, prepare_builds_write c p r =
      some ["builds_canonical.csv", "builds_canonical.pkl", "parsing_report.json"]) := by
  refine ⟨?_, ?_, ?_, ?_⟩ <;> decide

/-! ### Claim C8 -/

theorem pandasRowMax_eq_none_iff (l : List (Option ℚ)) :
    pandasRowMax l = none ↔ ∀ o ∈ l, o = none := by
  induction l with
  | nil => simp [pandasRowMax]
  | cons o t ih =>
    cases o with
    | none => simp [pandasRowMax, ih]
    | some v =>
      simp only [pandasRowMax]
      cases pandasRowMax t <;> simp

theorem pandasRowMax_is_ub (l : List (Option ℚ)) (m : ℚ)
    (h : pandasRowMax l = some m) : ∀ o ∈ l, ∀ v, o = some v → v ≤ m := by
  induction l generalizing m with
  | nil => simp
  | cons o t ih =>
    cases o with
    | none =>
      intro o' ho' v hv
      rcases List.mem_cons.mp ho' with h0 | h0
      · simp [h0] at hv
      · exact ih m h o' h0 v hv
    | some w =>
      simp only [pandasRowMax] at h
      intro o' ho' v hv
      rcases List.mem_cons.mp ho' with h0 | h0
      · subst h0
        cases hw : pandasRowMax t with
        | none => rw [hw] at h; cases h; cases hv; exact le_refl _
        | some mt =>
          rw [hw] at h; cases h; cases hv
          exact le_max_left _ _
      · cases hw : pandasRowMax t with
        | none =>
          have := (pandasRowMax_eq_none_iff t).mp hw o' h0
          simp [this] at hv
        | some mt =>
          rw [hw] at h; cases h
          exact le_trans (ih mt hw o' h0 v hv) (le_max_right _ _)

theorem pandasRowMax_attained (l : List (Option ℚ)) (m : ℚ)
    (h : pandasRowMax l = some m) : ∃ i, l.get? i = some (some m) := by
  induction l generalizing m with
  | nil => simp [pandasRowMax] at h
  | cons o t ih =>
    cases o with
    | none =>
      obtain ⟨i, hi⟩ := ih m h
      exact ⟨i + 1, by simpa using hi⟩
    | some w =>
      simp only [pandasRowMax] at h
      cases hw : pandasRowMax t with
      | none => rw [hw] at h; cases h; exact ⟨0, rfl⟩
      | some mt =>
        rw [hw] at h; cases h
        by_cases hle : mt ≤ w
        · exact ⟨0, by simp [max_eq_left hle]⟩
        · obtain ⟨i, hi⟩ := ih mt hw
          exact ⟨i + 1, by simpa [max_eq_right (le_of_not_le hle)] using hi⟩

theorem pickRole_first (names : List String) (scores : List (Option ℚ)) (m : ℚ)
    (hlen : scores.length ≤ names.length)
    (hex : ∃ i, scores.get? i = some (some m)) :
    ∃ j, scores.get? j = some (some m) ∧
      (∀ k, k < j → scores.get? k ≠ some (some m)) ∧
      pickRole (names.zip scores) m = ((names.get? j).getD "").capitalize := by
  induction scores generalizing names with
  | nil =>
    obtain ⟨i, hi⟩ := hex
    simp at hi
  | cons o t ih =>
    cases names with
    | nil => simp at hlen
    | cons n ns =>
      by_cases ho : o = some m
      · refine ⟨0, by simp [ho], by omega, ?_⟩
        simp [pickRole, ho]
      · have hex' : ∃ i, t.get? i = some (some m) := by
          obtain ⟨i, hi⟩ := hex
          cases i with
          | zero => simp only [List.get?_cons_zero] at hi; cases hi; exact absurd rfl ho
          | succ i => exact ⟨i, by simpa using hi⟩
        obtain ⟨j, hj1, hj2, hj3⟩ := ih ns (by simpa using hlen) hex'
        refine ⟨j + 1, by simpa using hj1, ?_, ?_⟩
        · intro k hk
          cases k with
          | zero => simpa using ho
          | succ k => simpa using hj2 k (by omega)
        · simpa [pickRole, ho] using hj3

/-- **C8.**  For every record (its five composite scores in declaration
order), the primary label names the composite attaining the maximum score;
when several composites tie, the first in the fixed declaration order
(finishing, shooting, playmaking, defense, athleticism) wins — the chosen
index `j` attains the maximum and no earlier index does; a record with all
composite scores missing receives the empty label and an undefined
(`none`) score. -/
theorem C8_primary_role_first_in_declaration_order (scores : List (Option ℚ))
    (h5 : scores.length = 5) :
    ((∀ o ∈ scores, o = none) → primary_role scores = (none, "")) ∧
    (∀ m, pandasRowMax scores = some m →
      (∀ o ∈ scores, ∀ v, o = some v → v ≤ m) ∧
      ∃ j, scores.get? j = some (some m) ∧
        (∀ k, k < j → scores.get? k ≠ some (some m)) ∧
        primary_role scores = (some m, ((COMP_NAMES.get? j).getD "").capitalize)) := by
  constructor
  · intro hall
    unfold primary_role
    rw [(pandasRowMax_eq_none_iff scores).mpr hall]
  · intro m hm
    refine ⟨pandasRowMax_is_ub _ _ hm, ?_⟩
    have hlen : scores.length ≤ COMP_NAMES.length := by
      rw [h5]; rfl
    obtain ⟨j, hj1, hj2, hj3⟩ :=
      pickRole_first COMP_NAMES scores m hlen (pandasRowMax_attained _ _ hm)
    refine ⟨j, hj1, hj2, ?_⟩
    unfold primary_role
    rw [hm]
    dsimp only
    rw [hj3]

/-- Witness for C8: a tie between shooting (index 1) and defense (index 3)
resolves to `"Shooting"`, the first in declaration order (alphabetically,
`defense` would come first). -/
theorem C8_witness :
    primary_role [none, some 50, none, some 50, some 20] = (some 50, "Shooting") := by
  have hmax : pandasRowMax [none, some 50, none, some 50, some 20] = some 50 := by
    with_unfolding_all decide
  obtain ⟨j, hj1, hj2, hj3⟩ :=
    ((C8_primary_role_first_in_declaration_order
      [none, some 50, none, some 50, some 20] rfl).2 50 hmax).2
  have hj : j = 1 := by
    rcases j with _ | _ | _ | _ | _ | j
    · exact absurd hj1 (by simp)
    · rfl
    · exact absurd hj1 (by simp)
    · exact absurd rfl (hj2 1 (by omega))
    · exact absurd hj1 (by with_unfolding_all decide)
    · exact absurd hj1 (by simp)
  subst hj
  rw [hj3]
  with_unfolding_all rfl

/-! ### Claim C7 -/

theorem countP_lt_add_count_le (l : List ℚ) (v : ℚ) :
    l.countP (fun x => decide (x < v)) + l.count v ≤ l.length := by
  induction l with
  | nil => simp
  | cons x t ih =>
    rw [List.countP_cons, List.count_cons, List.length_cons]
    by_cases hlt : x < v
    · rw [if_pos (by simpa using hlt),
        if_neg (by simp only [beq_iff_eq]; exact ne_of_lt hlt)]
      omega
    · rw [if_neg (by simpa using hlt)]
      split <;> omega

theorem avgRank_pos (l : List ℚ) (v : ℚ) : 0 < avgRank l v := by
  unfold avgRank
  have h1 : (0 : ℚ) ≤ (l.countP fun x => decide (x < v) : ℕ) := Nat.cast_nonneg _
  have h2 : (0 : ℚ) ≤ (l.count v : ℕ) := Nat.cast_nonneg _
  linarith

theorem avgRank_le_length (l : List ℚ) (v : ℚ) (hv : v ∈ l) :
    avgRank l v ≤ l.length := by
  unfold avgRank
  have h1 : 1 ≤ l.count v := List.count_pos_iff_mem.mpr hv
  have h2 := countP_lt_add_count_le l v
  have h1' : (1 : ℚ) ≤ (l.count v : ℕ) := by exact_mod_cast h1
  have h2' : ((l.countP fun x => decide (x < v) : ℕ) : ℚ) + (l.count v : ℕ) ≤ l.length := by
    exact_mod_cast h2
  linarith

theorem pctRank_pos (l : List ℚ) (v : ℚ) (hv : v ∈ l) : 0 < pctRank l v := by
  unfold pctRank
  have hlen : (0 : ℚ) < l.length := by
    have := List.length_pos.mpr (List.ne_nil_of_mem hv)
    exact_mod_cast this
  exact div_pos (mul_pos (by norm_num) (avgRank_pos l v)) hlen

theorem pctRank_le_100 (l : List ℚ) (v : ℚ) (hv : v ∈ l) : pctRank l v ≤ 100 := by
  unfold pctRank
  have hlen : (0 : ℚ) < l.length := by
    have := List.length_pos.mpr (List.ne_nil_of_mem hv)
    exact_mod_cast this
  rw [div_le_iff hlen]
  have := avgRank_le_length l v hv
  linarith

theorem mem_valsOf_of_get? (rows : List (String × Option ℚ)) (i : ℕ) (pos : String)
    (v : ℚ) (h : rows.get? i = some (pos, some v)) : v ∈ valsOf rows := by
  have hmem : (pos, some v) ∈ rows := List.get?_mem h
  exact List.mem_filterMap.mpr ⟨(pos, some v), hmem, rfl⟩

theorem mem_groupValsOf_of_get? (rows : List (String × Option ℚ)) (i : ℕ) (pos : String)
    (v : ℚ) (h : rows.get? i = some (pos, some v)) : v ∈ groupValsOf rows pos := by
  have hmem : (pos, some v) ∈ rows := List.get?_mem h
  exact List.mem_filterMap.mpr
    ⟨(pos, some v), List.mem_filter.mpr ⟨hmem, by simp⟩, rfl⟩

/-- **C7.**  For each composite, a record with a non-missing score receives a
global and a per-group percentile equal to
`100 × (average rank, ties at their mean rank) / (count of non-missing
scores in the population)`, rounded to 2 decimals, and the exact percentile
lies in `(0, 100]`; a record with a missing score receives an undefined
(`none`) percentile and — since the rank populations `valsOf` /
`groupValsOf` collect only non-missing scores — is excluded from every
denominator. -/
theorem C7_percentile_rank_convention (rows : List (String × Option ℚ)) :
    (∀ i pos v, rows.get? i = some (pos, some v) →
      (globalPcts rows).get? i = some (some (round2 (pctRank (valsOf rows) v))) ∧
      0 < pctRank (valsOf rows) v ∧ pctRank (valsOf rows) v ≤ 100 ∧
      (posPcts rows).get? i = some (some (round2 (pctRank (groupValsOf rows pos) v))) ∧
      0 < pctRank (groupValsOf rows pos) v ∧ pctRank (groupValsOf rows pos) v ≤ 100) ∧
    (∀ i pos, rows.get? i = some (pos, none) →
      (globalPcts rows).get? i = some none ∧ (posPcts rows).get? i = some none) := by
  constructor
  · intro i pos v h
    have hg : v ∈ valsOf rows := mem_valsOf_of_get? rows i pos v h
    have hp : v ∈ groupValsOf rows pos := mem_groupValsOf_of_get? rows i pos v h
    refine ⟨?_, pctRank_pos _ _ hg, pctRank_le_100 _ _ hg, ?_,
      pctRank_pos _ _ hp, pctRank_le_100 _ _ hp⟩
    · unfold globalPcts
      rw [List.get?_map, h]
      rfl
    · unfold posPcts
      rw [List.get?_map, h]
      rfl
  · intro i pos h
    constructor
    · unfold globalPcts
      rw [List.get?_map, h]
      rfl
    · unfold posPcts
      rw [List.get?_map, h]
      rfl

/-- Witness for C7: in the population
`[("PG", 10), ("PG", 20), ("C", missing)]`, the first record's global
percentile is `round2 (pctRank [10, 20] 10) = 50` (denominator 2: the
missing score is excluded), its per-group percentile is also `50`, and the
third record's percentiles are undefined. -/
theorem C7_witness :
    ((globalPcts [("PG", some 10), ("PG", some 20), ("C", none)]).get? 0 =
      some (some (round2 (pctRank (valsOf [("PG", some 10), ("PG", some 20), ("C", none)]) 10))) ∧
     (globalPcts [("PG", some 10), ("PG", some 20), ("C", none)]).get? 2 = some none) ∧
    round2 (pctRank (valsOf [("PG", some 10), ("PG", some 20), ("C", none)]) 10) = 50 := by
  have h := C7_percentile_rank_convention [("PG", some 10), ("PG", some 20), ("C", none)]
  refine ⟨⟨(h.1 0 "PG" 10 rfl).1, (h.2 2 "C" rfl).1⟩, ?_⟩
  with_unfolding_all decide

/-! ### Interval well-formedness (claims C10, C2) -/

/-- A parsed triple is entirely `None`, or entirely populated with
`median = (min + max) / 2` and — whenever both ends are finite — `min ≤ max`. -/
def WellParsed (t : Parsed) : Prop :=
  (t.mn = none ∧ t.mx = none ∧ t.med = none) ∨
  (∃ a b, t.mn = some a ∧ t.mx = some b ∧ t.med = some (pyHalf (pyAdd a b)) ∧
    (∀ x y : ℚ, a = .fin x → b = .fin y → x ≤ y))

theorem pyHalf_add_self (v : PyF) : pyHalf (pyAdd v v) = v := by
  cases v with
  | fin q =>
    show PyF.fin ((q + q) / 2) = PyF.fin q
    have : (q + q) / 2 = q := by ring
    rw [this]
  | nan => rfl
  | inf => rfl
  | ninf => rfl

theorem pyMin_pyMax_fin_le (a b : PyF) (x y : ℚ)
    (h1 : pyMin a b = .fin x) (h2 : pyMax a b = .fin y) : x ≤ y := by
  cases a <;> cases b <;>
    simp only [pyMin, pyMax, pyLt, decide_eq_true_eq, Bool.false_eq_true,
      if_false, if_true] at h1 h2
  case fin.fin qa qb =>
    split_ifs at h1 h2 with hba hab hab
    · exact absurd hab (not_lt.mpr (le_of_lt hba))
    · cases h1; cases h2; exact le_of_lt hba
    · cases h1; cases h2; exact le_of_lt hab
    · cases h1; cases h2; exact le_refl _
  case fin.nan qa =>
    cases h1; cases h2; exact le_refl _
  all_goals simp_all

theorem pyMul_fin_preserves_order (a b : PyF) (c : ℚ) (hc : 0 < c)
    (h : ∀ x y : ℚ, a = .fin x → b = .fin y → x ≤ y) :
    ∀ x y : ℚ, pyMul a (.fin c) = .fin x → pyMul b (.fin c) = .fin y → x ≤ y := by
  intro x y hx hy
  cases a <;> cases b <;>
    simp only [pyMul, gt_iff_lt, hc, if_pos, if_true] at hx hy
  case fin.fin qa qb =>
    cases hx; cases hy
    exact mul_le_mul_of_nonneg_right (h qa qb rfl rfl) (le_of_lt hc)
  all_goals simp_all

/-- Scaling a whole interval commutes with recomputing the midpoint:
`(a*k + b*k)/2 = ((a+b)/2)*k`, lifted to Python floats for positive finite
`k`. -/
theorem pyHalf_pyAdd_pyMul (a b : PyF) (c : ℚ) (hc : 0 < c) :
    pyHalf (pyAdd (pyMul a (.fin c)) (pyMul b (.fin c))) =
      pyMul (pyHalf (pyAdd a b)) (.fin c) := by
  cases a <;> cases b <;>
    simp only [pyMul, pyAdd, pyHalf, gt_iff_lt, hc, if_pos, if_true]
  case fin.fin qa qb =>
    show PyF.fin ((qa * c + qb * c) / 2) = PyF.fin ((qa + qb) / 2 * c)
    have : (qa * c + qb * c) / 2 = (qa + qb) / 2 * c := by ring
    rw [this]

theorem cmToIn_pos : 0 < cmToIn := by norm_num [cmToIn]

theorem kgToLb_pos : 0 < kgToLb := by norm_num [kgToLb]

/-- A degenerate single-point triple is well-formed. -/
theorem wellParsed_single (v : PyF) (w : List Warn) :
    WellParsed ⟨some v, some v, some v, w⟩ := by
  refine Or.inr ⟨v, v, rfl, rfl, ?_, ?_⟩
  · rw [pyHalf_add_self]
  · intro x y hx hy
    rw [hx] at hy
    cases hy
    exact le_refl _

theorem wellParsed_numericBranch (parts : List (List Char)) (s_clean : List Char)
    (flag : Bool) (w0 : List Warn) :
    WellParsed (numericBranch parts s_clean flag w0) := by
  unfold numericBranch
  dsimp only
  split
  · exact Or.inl ⟨rfl, rfl, rfl⟩
  · split
    · exact wellParsed_single _ _
    · exact wellParsed_single _ _
  · split
    · -- centimeter-scaled two-value interval
      refine Or.inr ⟨_, _, rfl, rfl, rfl, ?_⟩
      exact pyMul_fin_preserves_order _ _ _ cmToIn_pos
        (fun x y hx hy => pyMin_pyMax_fin_le _ _ x y hx hy)
    · refine Or.inr ⟨_, _, rfl, rfl, rfl, ?_⟩
      exact fun x y hx hy => pyMin_pyMax_fin_le _ _ x y hx hy

theorem wellParsed_ftBranch (parts : List (List Char)) (s_clean : List Char)
    (flag : Bool) : WellParsed (ftBranch parts s_clean flag) := by
  unfold ftBranch
  split
  · dsimp only
    split
    · exact wellParsed_single _ _
    · refine Or.inr ⟨_, _, rfl, rfl, rfl, ?_⟩
      intro x y hx hy
      cases hx; cases hy
      exact min_le_max
    · exact wellParsed_numericBranch _ _ _ _
  · split
    · split
      · exact wellParsed_single _ _
      · exact wellParsed_numericBranch _ _ _ _
    · exact wellParsed_numericBranch _ _ _ _

theorem wellParsed_core (s0 : List Char) (flag : Bool) :
    WellParsed (parse_range_core s0 flag) := by
  unfold parse_range_core
  dsimp only
  split
  · exact Or.inl ⟨rfl, rfl, rfl⟩
  · split
    · exact wellParsed_ftBranch _ _ _
    · exact wellParsed_numericBranch _ _ _ _

theorem wellParsed_parse_height (raw : String) : WellParsed (parse_height raw) := by
  unfold parse_height
  dsimp only
  split
  · exact Or.inl ⟨rfl, rfl, rfl⟩
  · rcases wellParsed_core (pyStrip raw.data) true with ⟨h1, h2, h3⟩ | ⟨a, b, h1, h2, h3, h4⟩
    · exact Or.inl ⟨h1, h2, h3⟩
    · exact Or.inr ⟨a, b, h1, h2, h3, h4⟩

theorem wellParsed_parse_weight (raw : String) : WellParsed (parse_weight raw) := by
  unfold parse_weight
  dsimp only
  split
  · exact Or.inl ⟨rfl, rfl, rfl⟩
  · have hWP := wellParsed_core (pyStrip raw.data) false
    split
    · next mn heq =>
      rcases hWP with ⟨h1, h2, h3⟩ | ⟨a, b, h1, h2, h3, h4⟩
      · rw [heq] at h1
        cases h1
      · rw [heq] at h1
        injection h1 with h1'
        subst h1'
      -- the kilogram / suspicious / plain cases
        split
        · split
          · rw [h2]
            dsimp only
            refine Or.inr ⟨pyMul mn (.fin kgToLb), pyMul b (.fin kgToLb), rfl, rfl, rfl, ?_⟩
            exact pyMul_fin_preserves_order mn b kgToLb kgToLb_pos h4
          · exact Or.inr ⟨mn, b, heq, h2, h3, h4⟩
        · exact Or.inr ⟨mn, b, heq, h2, h3, h4⟩
    · next heq =>
      rcases hWP with ⟨h1, h2, h3⟩ | ⟨a, b, h1, h2, h3, h4⟩
      · exact Or.inl ⟨h1, h2, h3⟩
      · rw [heq] at h1
        cases h1

theorem wellParsed_parse_stat (raw : String) : WellParsed (parse_stat raw) :=
  wellParsed_core raw.data false

theorem dropWhile_dropWhile (p : Char → Bool) (l : List Char) :
    List.dropWhile p (List.dropWhile p l) = List.dropWhile p l := by
  induction l with
  | nil => rfl
  | cons c t ih =>
    by_cases h : p c
    · rw [List.dropWhile_cons_of_pos h]
      exact ih
    · rw [List.dropWhile_cons_of_neg h, List.dropWhile_cons_of_neg h]

theorem head_not_of_dropWhile_eq_self (p : Char → Bool) (c : Char) (y : List Char)
    (h : List.dropWhile p (c :: y) = c :: y) : p c = false := by
  by_cases hp : p c
  · rw [List.dropWhile_cons_of_pos hp] at h
    have := congrArg List.length h
    have hle : (List.dropWhile p y).length ≤ y.length := (List.dropWhile_sublist _).length_le
    simp at this
    omega
  · exact Bool.of_not_eq_true hp

/-- Trimming the tail of a list with no leading `p`-run leaves no leading
`p`-run. -/
theorem dropWhile_reverse_dropWhile_reverse (p : Char → Bool) (x : List Char)
    (hx : List.dropWhile p x = x) :
    List.dropWhile p (List.dropWhile p x.reverse).reverse =
      (List.dropWhile p x.reverse).reverse := by
  cases hT : (List.dropWhile p x.reverse).reverse with
  | nil => rfl
  | cons c t =>
    have hsplit : List.takeWhile p x.reverse ++ List.dropWhile p x.reverse = x.reverse :=
      List.takeWhile_append_dropWhile p x.reverse
    have hx' : x = (List.dropWhile p x.reverse).reverse ++ (List.takeWhile p x.reverse).reverse := by
      have h' := congrArg List.reverse hsplit
      simp only [List.reverse_append, List.reverse_reverse] at h'
      exact h'.symm
    rw [hT] at hx'
    have hc : p c = false := by
      apply head_not_of_dropWhile_eq_self p c (t ++ (List.takeWhile p x.reverse).reverse)
      rw [← List.cons_append, ← hx']
      exact hx
    rw [List.dropWhile_cons_of_neg (by simp [hc])]

theorem pyStrip_idem (l : List Char) : pyStrip (pyStrip l) = pyStrip l := by
  unfold pyStrip
  have h1 : List.dropWhile isPyWs (List.dropWhile isPyWs l) = List.dropWhile isPyWs l :=
    dropWhile_dropWhile _ _
  rw [dropWhile_reverse_dropWhile_reverse isPyWs _ h1, List.reverse_reverse,
    dropWhile_dropWhile]

/-- `parse_range_or_single` strips its input itself, so pre-stripping (as
`parse_height` / `parse_weight` do) changes nothing. -/
theorem parse_range_core_strip (s0 : List Char) (flag : Bool) :
    parse_range_core (pyStrip s0) flag = parse_range_core s0 flag := by
  unfold parse_range_core
  rw [pyStrip_idem]

/-- A fully-populated parse forces a non-empty stripped input. -/
theorem strip_ne_nil_of_parse_some (raw : String) (flag : Bool) (mn mx med : PyF)
    (w : List Warn) (h : parse_range_or_single raw flag = ⟨some mn, some mx, some med, w⟩) :
    pyStrip raw.data ≠ [] := by
  intro hnil
  unfold parse_range_or_single parse_range_core at h
  rw [hnil] at h
  simp only [if_pos] at h
  cases h

/-- The median of a fully-populated parse is the midpoint of its endpoints. -/
theorem med_eq_midpoint_of_parse_some (raw : String) (flag : Bool) (mn mx med : PyF)
    (w : List Warn) (h : parse_range_or_single raw flag = ⟨some mn, some mx, some med, w⟩) :
    med = pyHalf (pyAdd mn mx) := by
  have hWP := wellParsed_core raw.data flag
  unfold parse_range_or_single at h
  rw [h] at hWP
  rcases hWP with ⟨h1, -, -⟩ | ⟨a, b, h1, h2, h3, -⟩
  · cases h1
  · simp only [Option.some.injEq] at h1 h2 h3
    rw [← h1, ← h2] at h3
    exact h3

theorem pyLt_90_false_of_gt_400 (v : PyF) (h : pyGt v (.fin 400) = true) :
    pyLt v (.fin 90) = false := by
  cases v with
  | fin q =>
    simp only [pyGt, pyLt, decide_eq_true_eq] at h
    simp only [pyLt, decide_eq_false_iff_not]
    intro hq
    linarith
  | nan => simp [pyGt, pyLt] at h
  | inf => rfl
  | ninf => simp [pyGt, pyLt] at h

/-! ### Claim C10 -/

/-- **C10** (counterexample).  The claim as stated requires `min ≤ max` for
every populated triple, but the raw token `"NAN"` parses — via Python's
`float()` accepting the literal — to the fully-populated triple
`(nan, nan, nan)`, whose components are not `None` yet satisfy no order
relation: IEEE `nan ≤ nan` is false. -/
theorem C10_counterexample :
    parse_stat "NAN" = ⟨some .nan, some .nan, some .nan, []⟩ ∧
    ¬ ((parse_stat "NAN").mn = none) ∧
    (∀ a b : PyF, (parse_stat "NAN").mn = some a → (parse_stat "NAN").mx = some b →
      pyLe a b = false) := by
  have h : parse_stat "NAN" = ⟨some .nan, some .nan, some .nan, []⟩ := by
    with_unfolding_all rfl
  refine ⟨h, by rw [h]; simp, ?_⟩
  intro a b ha hb
  rw [h] at ha hb
  simp only [Option.some.injEq] at ha hb
  rw [← ha, ← hb]
  rfl

/-- **C10** (amended).  Every parser of `prepare_builds.py` (generic range
parse with either flag setting, height, weight, stat) returns a triple that
is either entirely `None` or entirely populated with
`median = (min + max) / 2`; whenever both endpoints are finite (not NaN and
not infinite — which non-numeric literals accepted by Python's `float()` can
produce), `min ≤ max` also holds.  No code path — feet-inches parsing,
centimeter conversion, or kilogram reinterpretation — returns a partially
populated triple. -/
theorem C10_parsers_return_wellformed_triples (raw : String) (flag : Bool) :
    WellParsed (parse_range_or_single raw flag) ∧ WellParsed (parse_height raw) ∧
    WellParsed (parse_weight raw) ∧ WellParsed (parse_stat raw) :=
  ⟨wellParsed_core raw.data flag, wellParsed_parse_height raw,
   wellParsed_parse_weight raw, wellParsed_parse_stat raw⟩

/-- Witness for C10 on a concrete range: `"5-7"` parses to the populated
well-formed triple `(5, 7, 6)`. -/
theorem C10_witness :
    parse_stat "5-7" = ⟨some (.fin 5), some (.fin 7), some (.fin 6), []⟩ ∧
    WellParsed (parse_stat "5-7") :=
  ⟨by with_unfolding_all rfl, (C10_parsers_return_wellformed_triples "5-7" false).2.2.2⟩

/-! ### Claim C2 -/

/-- **C2.**  For every weight field whose parsed interval has a non-`None`
minimum: a minimum strictly below 90 causes the whole triple
`(min, max, median)` to be multiplied by `2.2046226218` (kilograms
reinterpreted as pounds) with a warning recorded; a minimum of exactly 90 is
kept as pounds with no reinterpretation and no warning; a minimum strictly
above 400 is kept unchanged with only a suspicious-value warning.  In
particular raw `"85"` yields `85 × 2.2046226218 = 187.392922853 ≈ 187.39` lb
with a warning, and raw `"95"` yields 95 lb unchanged. -/
theorem C2_weight_unit_heuristic :
    (∀ (raw : String) (mn mx med : PyF) (w : List Warn),
      parse_range_or_single raw false = ⟨some mn, some mx, some med, w⟩ →
      (pyLt mn (.fin 90) = true →
        parse_weight raw = ⟨some (pyMul mn (.fin kgToLb)), some (pyMul mx (.fin kgToLb)),
          some (pyMul med (.fin kgToLb)), w ++ [.interpretedKg (pyStrip raw.data)]⟩) ∧
      (mn = .fin 90 → parse_weight raw = ⟨some mn, some mx, some med, w⟩) ∧
      (pyGt mn (.fin 400) = true →
        parse_weight raw = ⟨some mn, some mx, some med,
          w ++ [.weightSuspicious mn (pyStrip raw.data)]⟩)) ∧
    parse_weight "85" = ⟨some (.fin (85 * kgToLb)), some (.fin (85 * kgToLb)),
      some (.fin ((85 * kgToLb + 85 * kgToLb) / 2)), [.interpretedKg ['8', '5']]⟩ ∧
    (85 : ℚ) * kgToLb = 1873929228530 / 10 ^ 10 ∧
    parse_weight "95" = ⟨some (.fin 95), some (.fin 95), some (.fin 95), []⟩ := by
  refine ⟨?_, by with_unfolding_all rfl, by norm_num [kgToLb], by with_unfolding_all rfl⟩
  intro raw mn mx med w h
  have hs : pyStrip raw.data ≠ [] := strip_ne_nil_of_parse_some raw false mn mx med w h
  have hr : parse_range_core (pyStrip raw.data) false = ⟨some mn, some mx, some med, w⟩ := by
    rw [parse_range_core_strip]
    exact h
  have hmed : med = pyHalf (pyAdd mn mx) :=
    med_eq_midpoint_of_parse_some raw false mn mx med w h
  refine ⟨?_, ?_, ?_⟩
  · intro hlt
    unfold parse_weight
    dsimp only
    rw [if_neg hs, hr]
    dsimp only
    rw [if_pos (by rw [hlt]; rfl), if_pos hlt]
    rw [hmed, ← pyHalf_pyAdd_pyMul mn mx kgToLb kgToLb_pos]
  · intro h90
    subst h90
    unfold parse_weight
    dsimp only
    rw [if_neg hs, hr]
    dsimp only
    rw [if_neg (by with_unfolding_all decide)]
  · intro h400
    unfold parse_weight
    dsimp only
    rw [if_neg hs, hr]
    dsimp only
    rw [if_pos (by rw [h400, Bool.or_true]), if_neg (by rw [pyLt_90_false_of_gt_400 mn h400]; simp)]

/-- Witness for C2: raw weight `"60"` parses to the degenerate interval
`(60, 60, 60)` with minimum below 90, so the whole triple is reinterpreted
as kilograms and converted to pounds, with the conversion warning. -/
theorem C2_witness :
    parse_weight "60" = ⟨some (pyMul (.fin 60) (.fin kgToLb)),
      some (pyMul (.fin 60) (.fin kgToLb)), some (pyMul (.fin 60) (.fin kgToLb)),
      [.interpretedKg ['6', '0']]⟩ :=
  ((C2_weight_unit_heuristic.1 "60" (.fin 60) (.fin 60) (.fin 60) []
    (by with_unfolding_all rfl)).1 (by with_unfolding_all decide))

/-! ### Character-level lemmas: a field whose parts all fail the numeric
parse contains no digit, so the `findall` fallback of
`parse_range_or_single` finds nothing either (claims C6, C5, C9). -/

theorem digit_ne_sign (c : Char) (h : c.isDigit = true) : c ≠ '-' ∧ c ≠ '+' := by
  constructor <;> intro he <;> subst he <;> exact absurd h (by decide)

theorem numericMatchBody_ne_none_of_headDigit (neg : Bool) (r : List Char)
    (h : headDigit r = true) : numericMatchBody neg r ≠ none := by
  unfold numericMatchBody
  rw [if_pos h]
  dsimp only
  split
  · split <;> simp
  · simp

theorem readSign_snd_sublist (l : List Char) : ((readSign l).2).Sublist l := by
  unfold readSign
  split
  · exact (List.sublist_cons_self _ _)
  · exact (List.sublist_cons_self _ _)
  · exact List.Sublist.refl _

theorem numericMatchAt_eq_none_of_no_digit (l : List Char)
    (h : ∀ c ∈ l, c.isDigit = false) : numericMatchAt l = none := by
  unfold numericMatchAt numericMatchBody
  rw [if_neg]
  intro hd
  cases hr : (readSign l).2 with
  | nil => rw [hr] at hd; exact absurd hd (by simp [headDigit])
  | cons c t =>
    rw [hr] at hd
    have hc : c ∈ l := (readSign_snd_sublist l).mem (by rw [hr]; exact List.mem_cons_self c t)
    simp only [headDigit] at hd
    rw [h c hc] at hd
    cases hd

theorem numericSearchVal_none_no_digit (l : List Char)
    (h : numericSearchVal l = none) : ∀ c ∈ l, c.isDigit = false := by
  induction l with
  | nil => simp
  | cons c rest ih =>
    unfold numericSearchVal at h
    intro d hd
    cases hm : numericMatchAt (c :: rest) with
    | some p => rw [hm] at h; cases h
    | none =>
      rw [hm] at h
      rcases List.mem_cons.mp hd with rfl | hdr
      · by_contra hdig
        have hdig' : d.isDigit = true := Bool.of_not_eq_false hdig
        have hsig := digit_ne_sign d hdig'
        have hrs : readSign (d :: rest) = (false, d :: rest) := by
          unfold readSign
          split
          · next heq => cases heq; exact absurd rfl hsig.1
          · next heq => cases heq; exact absurd rfl hsig.2
          · rfl
        have : numericMatchAt (d :: rest) ≠ none := by
          unfold numericMatchAt
          rw [hrs]
          exact numericMatchBody_ne_none_of_headDigit false (d :: rest)
            (by simp [headDigit, hdig'])
        exact this hm
      · exact ih h d hdr

theorem numericFindAllVals_eq_nil_of_no_digit (l : List Char)
    (h : ∀ c ∈ l, c.isDigit = false) : numericFindAllVals l = [] := by
  induction l with
  | nil => unfold numericFindAllVals; rfl
  | cons c rest ih =>
    unfold numericFindAllVals
    rw [numericMatchAt_eq_none_of_no_digit (c :: rest) h]
    exact ih fun d hd => h d (List.mem_cons_of_mem c hd)

theorem partNum_none_no_digit (p : List Char) (h : partNum p = none) :
    ∀ c ∈ p, c.isDigit = false := by
  apply numericSearchVal_none_no_digit
  unfold partNum at h
  cases hpt : parse_number_token p with
  | some v => rw [hpt] at h; cases h
  | none =>
    rw [hpt] at h
    cases hsv : numericSearchVal p with
    | some q => rw [hsv] at h; cases h
    | none => rfl

theorem splitDashes_ne_nil (l : List Char) : splitDashes l ≠ [] := by
  cases l with
  | nil => simp [splitDashes]
  | cons c rest =>
    unfold splitDashes
    split
    · simp
    · split <;> simp

theorem mem_splitDashes_of_not_dash (l : List Char) (c : Char) (hc : c ∈ l)
    (hd : isDash c = false) : ∃ seg ∈ splitDashes l, c ∈ seg := by
  induction l with
  | nil => cases hc
  | cons d rest ih =>
    unfold splitDashes
    by_cases hdd : isDash d = true
    · rw [if_pos hdd]
      rcases List.mem_cons.mp hc with rfl | hcr
      · rw [hd] at hdd; cases hdd
      · obtain ⟨seg, hseg, hcseg⟩ := ih hcr
        exact ⟨seg, List.mem_cons_of_mem _ hseg, hcseg⟩
    · rw [if_neg hdd]
      rcases List.mem_cons.mp hc with rfl | hcr
      · cases hsp : splitDashes rest with
        | nil => exact absurd hsp (splitDashes_ne_nil rest)
        | cons seg segs => exact ⟨c :: seg, List.mem_cons_self _ _, List.mem_cons_self _ _⟩
      · obtain ⟨seg, hseg, hcseg⟩ := ih hcr
        cases hsp : splitDashes rest with
        | nil => exact absurd hsp (splitDashes_ne_nil rest)
        | cons seg0 segs =>
          rw [hsp] at hseg
          rcases List.mem_cons.mp hseg with rfl | hsegs
          · exact ⟨d :: seg, List.mem_cons_self _ _, List.mem_cons_of_mem d hcseg⟩
          · exact ⟨seg, List.mem_cons_of_mem _ hsegs, hcseg⟩

theorem mem_dropWhile_of_not (p : Char → Bool) (l : List Char) (c : Char)
    (hc : c ∈ l) (hp : p c = false) : c ∈ List.dropWhile p l := by
  induction l with
  | nil => cases hc
  | cons d rest ih =>
    by_cases hd : p d = true
    · rw [List.dropWhile_cons_of_pos hd]
      rcases List.mem_cons.mp hc with rfl | hcr
      · rw [hp] at hd; cases hd
      · exact ih hcr
    · rw [List.dropWhile_cons_of_neg hd]
      exact hc

theorem mem_pyStrip_of_not_ws (l : List Char) (c : Char) (hc : c ∈ l)
    (hw : isPyWs c = false) : c ∈ pyStrip l := by
  unfold pyStrip
  rw [List.mem_reverse]
  apply mem_dropWhile_of_not _ _ _ _ hw
  rw [List.mem_reverse]
  exact mem_dropWhile_of_not _ _ _ hc hw

theorem digit_not_ws (c : Char) (h : c.isDigit = true) : isPyWs c = false := by
  unfold isPyWs
  simp only [Bool.or_eq_false_iff, decide_eq_false_iff_not]
  refine ⟨⟨⟨⟨⟨?_, ?_⟩, ?_⟩, ?_⟩, ?_⟩, ?_⟩ <;>
    (intro he; subst he; exact absurd h (by decide))

theorem digit_not_dash (c : Char) (h : c.isDigit = true) : isDash c = false := by
  unfold isDash
  simp only [Bool.or_eq_false_iff, decide_eq_false_iff_not]
  refine ⟨⟨?_, ?_⟩, ?_⟩ <;>
    (intro he; subst he; exact absurd h (by decide))

theorem digit_in_parts (s_clean : List Char) (c : Char) (hc : c ∈ s_clean)
    (hdig : c.isDigit = true) : ∃ p ∈ partsOf s_clean, c ∈ p := by
  obtain ⟨seg, hseg, hcseg⟩ :=
    mem_splitDashes_of_not_dash s_clean c hc (digit_not_dash c hdig)
  have hcp : c ∈ pyStrip seg := mem_pyStrip_of_not_ws seg c hcseg (digit_not_ws c hdig)
  refine ⟨pyStrip seg, ?_, hcp⟩
  unfold partsOf
  apply List.mem_filter.mpr
  refine ⟨List.mem_map.mpr ⟨seg, hseg, rfl⟩, ?_⟩
  simp only [ne_eq, decide_eq_true_eq]
  intro hnil
  rw [hnil] at hcp
  cases hcp

/-- If every part fails the numeric parse, the normalized string has no
digit at all, so the `findall` fallback is empty (this branch of
`parse_range_or_single` is dead code). -/
theorem findall_dead (s_clean : List Char)
    (h : ∀ p ∈ partsOf s_clean, partNum p = none) :
    numericFindAllVals s_clean = [] := by
  apply numericFindAllVals_eq_nil_of_no_digit
  intro c hc
  by_contra hdig
  have hdig' : c.isDigit = true := Bool.of_not_eq_false hdig
  obtain ⟨p, hp, hcp⟩ := digit_in_parts s_clean c hc hdig'
  have := partNum_none_no_digit p (h p hp) c hcp
  rw [this] at hdig'
  cases hdig'

/-! ### Claim C6 -/

/-- **C6** (counterexample).  The claim's case analysis is stated for every
raw field value, but an input containing a feet-inches pattern takes the
feet-inches branch instead: `"6'3"` has exactly one numerically valid part
(`parse_number_token` extracts `6`), so the claimed analysis would yield
`(6, 6, 6)`, while the parser returns the feet-inches value `(75, 75, 75)`. -/
theorem C6_counterexample :
    parse_range_or_single "6'3" false ≠ specRangeParse "6'3" ∧
    parse_range_or_single "6'3" false =
      ⟨some (.fin 75), some (.fin 75), some (.fin 75), []⟩ ∧
    specRangeParse "6'3" = ⟨some (.fin 6), some (.fin 6), some (.fin 6), []⟩ := by
  refine ⟨?_, by with_unfolding_all rfl, by with_unfolding_all rfl⟩
  with_unfolding_all decide

/-- **C6** (amended).  Provided no feet-inches pattern is detected in the
normalized value (otherwise the feet-inches branch takes precedence, cf.
C9), the Range Parser performs exactly the claimed case analysis: zero
numerically valid parts yield `(None, None, None)`; exactly one valid part
`V` yields `(V, V, V)`; two or more yield `(min, max, (min+max)/2)` of the
first two valid parts — always with one warning per part that failed to
parse.  Stated as: `parse_range_or_single` (with the Range Parser's own
flag setting, no centimeter conversion) equals `specRangeParse`, the
function written from the claim's words. -/
theorem C6_range_parser_case_analysis (raw : String)
    (hft : ftinSearch (normalizeSeps (pyStrip raw.data)) = none) :
    parse_range_or_single raw false = specRangeParse raw := by
  unfold parse_range_or_single parse_range_core specRangeParse
  by_cases hs : pyStrip raw.data = []
  · rw [if_pos hs, if_pos hs]
  · rw [if_neg hs, if_neg hs]
    dsimp only
    rw [hft]
    unfold numericBranch collectNums
    dsimp only
    rw [List.nil_append]
    by_cases hv : (partsOf (normalizeSeps (pyStrip raw.data))).filterMap partNum = []
    · rw [if_pos hv, hv, findall_dead _ (List.filterMap_eq_nil.mp hv)]
      rfl
    · rw [if_neg hv]
      rcases hshape : (partsOf (normalizeSeps (pyStrip raw.data))).filterMap partNum with
        _ | ⟨a, _ | ⟨b, t⟩⟩
      · exact absurd hshape hv
      · simp
      · simp

/-- Witness for C6: the range string `"85 to 92"` (no feet-inches pattern)
follows the claimed case analysis and yields `(85, 92, 88.5)`. -/
theorem C6_witness :
    parse_range_or_single "85 to 92" false = specRangeParse "85 to 92" ∧
    parse_range_or_single "85 to 92" false =
      ⟨some (.fin 85), some (.fin 92), some (.fin (177/2)), []⟩ :=
  ⟨C6_range_parser_case_analysis "85 to 92" (by with_unfolding_all rfl),
   by with_unfolding_all rfl⟩

/-! ### The feet-inches branch (claims C5, C9) -/

/-- The result of `parse_range_or_single` whenever its feet-inches branch
applies (`ftApplies`); the conversion flag does not occur. -/
def ftResult (raw : String) : Parsed :=
  let parts := partsOf (normalizeSeps (pyStrip raw.data))
  if 2 ≤ parts.length then
    let pairs := (parts.take 2).map fun p => (p, ftin_to_inches p)
    let ws := pairs.filterMap fun pr =>
      if pr.2 = none then some (Warn.unparseableFtin pr.1) else none
    match pairs.filterMap (·.2) with
    | [v] => ⟨some (.fin v), some (.fin v), some (.fin v), ws⟩
    | v₁ :: v₂ :: _ =>
      ⟨some (.fin (min v₁ v₂)), some (.fin (max v₁ v₂)),
       some (.fin ((min v₁ v₂ + max v₁ v₂) / 2)), ws⟩
    | [] => .empty
  else
    match parts with
    | p :: _ =>
      match ftin_to_inches p with
      | some v => ⟨some (.fin v), some (.fin v), some (.fin v), []⟩
      | none => .empty
    | [] => .empty

theorem ftBranch_vals_eq (parts : List (List Char)) :
    ((parts.take 2).map fun p => (p, ftin_to_inches p)).filterMap (·.2) =
      (parts.take 2).filterMap ftin_to_inches := by
  rw [List.filterMap_map]
  rfl

/-- Whenever the feet-inches branch applies, the parse result is `ftResult`,
independently of the centimeter flag. -/
theorem parse_eq_ftResult (raw : String) (flag : Bool) (h : ftApplies raw = true) :
    parse_range_or_single raw flag = ftResult raw := by
  unfold ftApplies at h
  dsimp only at h
  unfold parse_range_or_single parse_range_core ftResult
  dsimp only
  by_cases hs : pyStrip raw.data = []
  · exfalso
    have hclean : normalizeSeps (pyStrip raw.data) = [] := by
      rw [hs]
      simp [normalizeSeps, dashNormalize, replaceSpacedTo, replaceTo]
    rw [hclean] at h
    simp [ftinSearch] at h
  · rw [if_neg hs]
    cases hft : ftinSearch (normalizeSeps (pyStrip raw.data)) with
    | none =>
      rw [hft] at h
      exact absurd h (by simp)
    | some m =>
      rw [hft] at h
      dsimp only
      unfold ftBranch
      by_cases hlen : 2 ≤ (partsOf (normalizeSeps (pyStrip raw.data))).length
      · rw [if_pos hlen] at h
        rw [if_pos hlen, if_pos hlen]
        dsimp only
        rw [ftBranch_vals_eq]
        have hlen2 : ((partsOf (normalizeSeps (pyStrip raw.data))).take 2).length ≤ 2 := by
          rw [List.length_take]
          exact min_le_left _ _
        rcases hsh : ((partsOf (normalizeSeps (pyStrip raw.data))).take 2).filterMap
            ftin_to_inches with _ | ⟨v, _ | ⟨w, t⟩⟩
        · rw [hsh] at h
          exact absurd h (by simp)
        · rfl
        · cases t with
          | nil => rfl
          | cons u t' =>
            exfalso
            have hfl := List.length_filterMap_le ftin_to_inches
              ((partsOf (normalizeSeps (pyStrip raw.data))).take 2)
            rw [hsh] at hfl
            simp at hfl
      · rw [if_neg hlen] at h
        rw [if_neg hlen, if_neg hlen]
        cases hp : partsOf (normalizeSeps (pyStrip raw.data)) with
        | nil =>
          rw [hp] at h
          exact absurd h (by simp)
        | cons p rest =>
          rw [hp] at h
          dsimp only at h
          obtain ⟨v, hv⟩ := Option.isSome_iff_exists.mp h
          dsimp only
          rw [hv]

/-- The feet-inches result agrees with the spec-worded endpoint analysis,
regardless of whether the branch fell through. -/
theorem ftResult_triple (raw : String) : tripleOf (ftResult raw) = specFtTriple raw := by
  unfold ftResult specFtTriple
  by_cases hlen : 2 ≤ (partsOf (normalizeSeps (pyStrip raw.data))).length
  · rw [if_pos hlen]
    dsimp only
    rw [ftBranch_vals_eq]
    rcases hsh : ((partsOf (normalizeSeps (pyStrip raw.data))).take 2).filterMap
        ftin_to_inches with _ | ⟨v, _ | ⟨w, t⟩⟩
    · rfl
    · rfl
    · cases t with
      | nil => rfl
      | cons u t' =>
        exfalso
        have hlen2 : ((partsOf (normalizeSeps (pyStrip raw.data))).take 2).length ≤ 2 := by
          rw [List.length_take]
          exact min_le_left _ _
        have hfl := List.length_filterMap_le ftin_to_inches
          ((partsOf (normalizeSeps (pyStrip raw.data))).take 2)
        rw [hsh] at hfl
        simp at hfl
  · rw [if_neg hlen]
    cases hp : partsOf (normalizeSeps (pyStrip raw.data)) with
    | nil => rfl
    | cons p rest =>
      cases rest with
      | nil =>
        dsimp only
        cases hv : ftin_to_inches p with
        | none => simp [hv, tripleOf, Parsed.empty]
        | some v => simp [hv, tripleOf]
      | cons q rest' =>
        exfalso
        rw [hp] at hlen
        simp at hlen

/-! ### Digit-string lemmas for the feet-inches claim (C9) -/

theorem takeWhile_append_all (p : Char → Bool) (A B : List Char)
    (hA : ∀ c ∈ A, p c = true) : (A ++ B).takeWhile p = A ++ B.takeWhile p := by
  induction A with
  | nil => simp
  | cons c r ih =>
    rw [List.cons_append, List.takeWhile_cons_of_pos (hA c (List.mem_cons_self c r)),
      ih fun d hd => hA d (List.mem_cons_of_mem c hd), List.cons_append]

theorem dropWhile_append_all (p : Char → Bool) (A B : List Char)
    (hA : ∀ c ∈ A, p c = true) : (A ++ B).dropWhile p = B.dropWhile p := by
  induction A with
  | nil => simp
  | cons c r ih =>
    rw [List.cons_append, List.dropWhile_cons_of_pos (hA c (List.mem_cons_self c r)),
      ih fun d hd => hA d (List.mem_cons_of_mem c hd)]

theorem takeWhile_all (p : Char → Bool) (A : List Char)
    (hA : ∀ c ∈ A, p c = true) : A.takeWhile p = A := by
  induction A with
  | nil => rfl
  | cons c r ih =>
    rw [List.takeWhile_cons_of_pos (hA c (List.mem_cons_self c r)),
      ih fun d hd => hA d (List.mem_cons_of_mem c hd)]

theorem dropWhile_eq_self_of_all_not (p : Char → Bool) (l : List Char)
    (h : ∀ c ∈ l, p c = false) : l.dropWhile p = l := by
  cases l with
  | nil => rfl
  | cons c r =>
    exact List.dropWhile_cons_of_neg (by rw [h c (List.mem_cons_self c r)]; simp)

theorem ne_of_isDigit_of_not (c d : Char) (h : c.isDigit = true)
    (hd : d.isDigit = false) : c ≠ d := by
  intro he
  rw [he, hd] at h
  cases h

theorem map_id_of_fix (g : Char → Char) (l : List Char) (h : ∀ c ∈ l, g c = c) :
    l.map g = l := by
  induction l with
  | nil => rfl
  | cons c r ih =>
    rw [List.map_cons, h c (List.mem_cons_self c r),
      ih fun d hd => h d (List.mem_cons_of_mem c hd)]

theorem dashNormalize_id (l : List Char) (h : ∀ c ∈ l, c ≠ '–' ∧ c ≠ '—') :
    dashNormalize l = l := by
  unfold dashNormalize
  rw [map_id_of_fix _ _ (fun c hc => if_neg (h c hc).1),
    map_id_of_fix _ _ (fun c hc => if_neg (h c hc).2)]

theorem replaceSpacedTo_id (l : List Char) (h : ∀ c ∈ l, c ≠ ' ') :
    replaceSpacedTo l = l := by
  induction l with
  | nil => simp [replaceSpacedTo]
  | cons c r ih =>
    unfold replaceSpacedTo
    rw [if_neg (by simp [h c (List.mem_cons_self c r)]),
      ih fun d hd => h d (List.mem_cons_of_mem c hd)]

theorem replaceTo_id (l : List Char) (h : ∀ c ∈ l, c ≠ 't') :
    replaceTo l = l := by
  induction l with
  | nil => simp [replaceTo]
  | cons c r ih =>
    unfold replaceTo
    rw [if_neg (by simp [h c (List.mem_cons_self c r)]),
      ih fun d hd => h d (List.mem_cons_of_mem c hd)]

theorem normalizeSeps_id (l : List Char)
    (h : ∀ c ∈ l, c ≠ '–' ∧ c ≠ '—' ∧ c ≠ ' ' ∧ c ≠ 't') : normalizeSeps l = l := by
  unfold normalizeSeps
  rw [dashNormalize_id l (fun c hc => ⟨(h c hc).1, (h c hc).2.1⟩),
    replaceSpacedTo_id l (fun c hc => (h c hc).2.2.1),
    replaceTo_id l (fun c hc => (h c hc).2.2.2)]

theorem pyStrip_id (l : List Char) (h : ∀ c ∈ l, isPyWs c = false) : pyStrip l = l := by
  unfold pyStrip
  rw [dropWhile_eq_self_of_all_not _ _ h,
    dropWhile_eq_self_of_all_not _ _ (fun c hc => h c (List.mem_reverse.mp hc)),
    List.reverse_reverse]

theorem splitDashes_single (l : List Char) (h : ∀ c ∈ l, isDash c = false) :
    splitDashes l = [l] := by
  induction l with
  | nil => rfl
  | cons c r ih =>
    unfold splitDashes
    rw [if_neg (by rw [h c (List.mem_cons_self c r)]; simp),
      ih fun d hd => h d (List.mem_cons_of_mem c hd)]

theorem partsOf_single (l : List Char) (hl : l ≠ [])
    (hdash : ∀ c ∈ l, isDash c = false) (hws : ∀ c ∈ l, isPyWs c = false) :
    partsOf l = [l] := by
  unfold partsOf
  rw [splitDashes_single l hdash, List.map_cons, List.map_nil, pyStrip_id l hws]
  simp [hl]

theorem ftinMatchAt_ftin (d1 d2 : List Char) (h1 : d1 ≠ []) (h2 : d2 ≠ [])
    (hd1 : ∀ c ∈ d1, c.isDigit = true) (hd2 : ∀ c ∈ d2, c.isDigit = true) :
    ftinMatchAt (d1 ++ '\'' :: d2) = some (charsToNat d1, charsToNat d2) := by
  have hhead : headDigit (d1 ++ '\'' :: d2) = true := by
    cases d1 with
    | nil => exact absurd rfl h1
    | cons c r =>
      rw [List.cons_append]
      exact hd1 c (List.mem_cons_self c r)
  have hhead2 : headDigit d2 = true := by
    cases d2 with
    | nil => exact absurd rfl h2
    | cons c r => exact hd2 c (List.mem_cons_self c r)
  unfold ftinMatchAt
  rw [if_pos hhead]
  rw [dropWhile_append_all _ _ _ hd1,
    List.dropWhile_cons_of_neg (p := Char.isDigit) (by decide),
    List.dropWhile_cons_of_neg (p := isPyWs) (by decide)]
  show (if headDigit (List.dropWhile isPyWs d2) = true then
      some (charsToNat (List.takeWhile Char.isDigit (d1 ++ '\'' :: d2)),
        charsToNat (List.takeWhile Char.isDigit (List.dropWhile isPyWs d2)))
    else none) = some (charsToNat d1, charsToNat d2)
  rw [dropWhile_eq_self_of_all_not _ _ (fun c hc => digit_not_ws c (hd2 c hc)),
    if_pos hhead2, takeWhile_append_all _ _ _ hd1,
    List.takeWhile_cons_of_neg (p := Char.isDigit) (by decide),
    List.append_nil, takeWhile_all _ _ hd2]

theorem ftinSearch_of_matchAt (l : List Char) (m : ℕ × ℕ)
    (h : ftinMatchAt l = some m) : ftinSearch l = some m := by
  cases l with
  | nil =>
    unfold ftinMatchAt at h
    simp [headDigit] at h
  | cons c r =>
    unfold ftinSearch
    rw [h]

theorem ftin_to_inches_ftin (d1 d2 : List Char) (h1 : d1 ≠ []) (h2 : d2 ≠ [])
    (hd1 : ∀ c ∈ d1, c.isDigit = true) (hd2 : ∀ c ∈ d2, c.isDigit = true) :
    ftin_to_inches (d1 ++ '\'' :: d2) =
      some ((charsToNat d1 * 12 + charsToNat d2 : ℕ) : ℚ) := by
  unfold ftin_to_inches
  rw [if_neg (by simp [h1]),
    ftinSearch_of_matchAt _ _ (ftinMatchAt_ftin d1 d2 h1 h2 hd1 hd2)]

/-- The characters of a feet-inches string are digits or the apostrophe, so
every normalization step leaves it untouched. -/
theorem ftin_chars_class (d1 d2 : List Char)
    (hd1 : ∀ c ∈ d1, c.isDigit = true) (hd2 : ∀ c ∈ d2, c.isDigit = true) :
    ∀ c ∈ d1 ++ '\'' :: d2, isPyWs c = false ∧ isDash c = false ∧
      c ≠ '–' ∧ c ≠ '—' ∧ c ≠ ' ' ∧ c ≠ 't' := by
  intro c hc
  have hcls : c.isDigit = true ∨ c = '\'' := by
    rcases List.mem_append.mp hc with hcd | hcd
    · exact Or.inl (hd1 c hcd)
    · rcases List.mem_cons.mp hcd with rfl | hcd'
      · exact Or.inr rfl
      · exact Or.inl (hd2 c hcd')
  rcases hcls with hdig | rfl
  · exact ⟨digit_not_ws c hdig, digit_not_dash c hdig,
      ne_of_isDigit_of_not c _ hdig (by decide), ne_of_isDigit_of_not c _ hdig (by decide),
      ne_of_isDigit_of_not c _ hdig (by decide), ne_of_isDigit_of_not c _ hdig (by decide)⟩
  · exact ⟨by decide, by decide, by decide, by decide, by decide, by decide⟩

/-- A feet-inches string `F'I` (digit strings `d1`, `d2` rendering `F` and
`I`) parses to exactly `F*12 + I` inches, under either flag setting. -/
theorem parse_core_ftin_string (d1 d2 : List Char) (flag : Bool)
    (h1 : d1 ≠ []) (h2 : d2 ≠ [])
    (hd1 : ∀ c ∈ d1, c.isDigit = true) (hd2 : ∀ c ∈ d2, c.isDigit = true) :
    parse_range_core (d1 ++ '\'' :: d2) flag =
      ⟨some (.fin ((charsToNat d1 * 12 + charsToNat d2 : ℕ) : ℚ)),
       some (.fin ((charsToNat d1 * 12 + charsToNat d2 : ℕ) : ℚ)),
       some (.fin ((charsToNat d1 * 12 + charsToNat d2 : ℕ) : ℚ)), []⟩ := by
  have hcls := ftin_chars_class d1 d2 hd1 hd2
  have hne : d1 ++ '\'' :: d2 ≠ [] := by simp [h1]
  have hstrip : pyStrip (d1 ++ '\'' :: d2) = d1 ++ '\'' :: d2 :=
    pyStrip_id _ fun c hc => (hcls c hc).1
  have hnorm : normalizeSeps (d1 ++ '\'' :: d2) = d1 ++ '\'' :: d2 :=
    normalizeSeps_id _ fun c hc =>
      ⟨(hcls c hc).2.2.1, (hcls c hc).2.2.2.1, (hcls c hc).2.2.2.2.1, (hcls c hc).2.2.2.2.2⟩
  have hparts : partsOf (d1 ++ '\'' :: d2) = [d1 ++ '\'' :: d2] :=
    partsOf_single _ hne (fun c hc => (hcls c hc).2.1) (fun c hc => (hcls c hc).1)
  unfold parse_range_core
  rw [hstrip, if_neg hne, hnorm]
  dsimp only
  rw [hparts, ftinSearch_of_matchAt _ _ (ftinMatchAt_ftin d1 d2 h1 h2 hd1 hd2)]
  dsimp only
  unfold ftBranch
  rw [if_neg (by simp)]
  dsimp only
  rw [ftin_to_inches_ftin d1 d2 h1 h2 hd1 hd2]

/-! ### Claim C9 -/

/-- Claim **C9** (corrected).  A feet-inches string `F'I` — digit strings
`d1` rendering `F` and `d2` rendering `I` — parses to exactly `F*12 + I`
inches under either flag setting, with no warnings; in particular `7'1"`
parses to 85 inches.  The precedence clause holds in the weakened form
`ftApplies`: whenever the feet-inches branch actually produces the result
(the pattern is detected AND at least one of the first two dash-separated
parts itself parses as feet-inches), the endpoint triple equals
`specFtTriple`, the feet-inches interpretation of the claim's words.  The
claim's stronger wording — precedence whenever the pattern is detected
*anywhere* — is refuted by the counterexample `"a-b-5'6"`. -/
theorem C9_feet_inches_parsing :
    (∀ (d1 d2 : List Char) (flag : Bool), d1 ≠ [] → d2 ≠ [] →
      (∀ c ∈ d1, c.isDigit = true) → (∀ c ∈ d2, c.isDigit = true) →
      parse_range_core (d1 ++ '\'' :: d2) flag =
        ⟨some (.fin ((charsToNat d1 * 12 + charsToNat d2 : ℕ) : ℚ)),
         some (.fin ((charsToNat d1 * 12 + charsToNat d2 : ℕ) : ℚ)),
         some (.fin ((charsToNat d1 * 12 + charsToNat d2 : ℕ) : ℚ)), []⟩) ∧
    (∀ flag, parse_range_or_single "7'1\"" flag =
      ⟨some (.fin 85), some (.fin 85), some (.fin 85), []⟩) ∧
    (∀ (raw : String) (flag : Bool), ftApplies raw = true →
      tripleOf (parse_range_or_single raw flag) = specFtTriple raw) := by
  refine ⟨fun d1 d2 flag h1 h2 hd1 hd2 =>
      parse_core_ftin_string d1 d2 flag h1 h2 hd1 hd2,
    fun flag => ?_,
    fun raw flag h => by rw [parse_eq_ftResult raw flag h, ftResult_triple]⟩
  cases flag
  · with_unfolding_all rfl
  · with_unfolding_all rfl

/-- Counterexample for C9's precedence wording: in `"a-b-5'6"` the
feet-inches pattern `5'6` is detected in the normalized string, yet the
parser returns the plain-numeric fallback `(5, 5, 5)` (the digit `5`
extracted from the third part), while the claim's feet-inches interpretation
of the endpoints (`a` and `b`, neither of which matches) is
`(None, None, None)`. -/
theorem C9_counterexample :
    ftinSearch (normalizeSeps (pyStrip "a-b-5'6".data)) ≠ none ∧
    tripleOf (parse_range_or_single "a-b-5'6" false) =
      (some (.fin 5), some (.fin 5), some (.fin 5)) ∧
    specFtTriple "a-b-5'6" = (none, none, none) := by
  refine ⟨by with_unfolding_all decide, by with_unfolding_all rfl,
    by with_unfolding_all rfl⟩

/-- Witness for C9: the digit-string clause at `7'1` (85 inches) and the
precedence clause at the range `6'11" to 7'4"`. -/
theorem C9_witness :
    parse_range_core (['7'] ++ '\'' :: ['1']) false =
      ⟨some (.fin ((charsToNat ['7'] * 12 + charsToNat ['1'] : ℕ) : ℚ)),
       some (.fin ((charsToNat ['7'] * 12 + charsToNat ['1'] : ℕ) : ℚ)),
       some (.fin ((charsToNat ['7'] * 12 + charsToNat ['1'] : ℕ) : ℚ)), []⟩ ∧
    tripleOf (parse_range_or_single "6'11\" to 7'4\"" true) =
      specFtTriple "6'11\" to 7'4\"" :=
  ⟨C9_feet_inches_parsing.1 ['7'] ['1'] false (by decide) (by decide)
      (by decide) (by decide),
   C9_feet_inches_parsing.2.2 "6'11\" to 7'4\"" true (by with_unfolding_all rfl)⟩

/-! ### Claim C5 -/

theorem partsOf_normalizeSeps_nil : partsOf (normalizeSeps []) = [] := by
  have h : normalizeSeps [] = [] := by
    simp [normalizeSeps, dashNormalize, replaceSpacedTo, replaceTo]
  rw [h]
  rfl

/-- `numericBranch` on a part list whose numeric values collapse to a single
one: the centimeter heuristic applies exactly when the flag is set and the
value exceeds 100. -/
theorem numericBranch_singleton (parts : List (List Char)) (s_clean : List Char)
    (flag : Bool) (w0 : List Warn) (v : PyF)
    (h : parts.filterMap partNum = [v]) :
    numericBranch parts s_clean flag w0 =
      if flag && pyGt v (.fin 100) then
        ⟨some (pyMul v (.fin cmToIn)), some (pyMul v (.fin cmToIn)),
         some (pyMul v (.fin cmToIn)), w0 ++ (collectNums parts).2⟩
      else ⟨some v, some v, some v, w0 ++ (collectNums parts).2⟩ := by
  unfold numericBranch collectNums
  dsimp only
  rw [h, if_neg (by simp)]

/-- On a non-empty stripped input, `parse_height` is the flagged range parse
with the two window warnings appended. -/
theorem parse_height_decomp (raw : String) (h : pyStrip raw.data ≠ []) :
    parse_height raw =
      ⟨(parse_range_or_single raw true).mn, (parse_range_or_single raw true).mx,
       (parse_range_or_single raw true).med,
       (parse_range_or_single raw true).warns ++
         heightWindowWarns (parse_range_or_single raw true).mn
           (parse_range_or_single raw true).mx (pyStrip raw.data)⟩ := by
  have hcore : parse_range_or_single raw true = parse_range_core (pyStrip raw.data) true := by
    unfold parse_range_or_single
    rw [parse_range_core_strip]
  rw [hcore]
  unfold parse_height
  dsimp only
  rw [if_neg h]

theorem parse_height_empty (raw : String) (h : pyStrip raw.data = []) :
    parse_height raw = .empty ∧ parse_range_or_single raw true = .empty := by
  unfold parse_height parse_range_or_single parse_range_core
  rw [h]
  exact ⟨rfl, rfl⟩

/-- Claim **C5** (corrected).  (i) A bare numeric height (the parts of the
normalized value numerically collapse to the single value `v`, no feet-inches
pattern) is multiplied by `0.3937007874` exactly when `v > 100`, else kept.
(ii) When the feet-inches branch actually produces the result (`ftApplies`),
the centimeter flag is irrelevant — the weakening of the claim's "feet-inches
notation bypasses this conversion entirely", which the counterexample
`"a-b-150'2"` refutes.  (iii) `parse_height` keeps the parsed triple of the
flagged range parse unchanged and records a min/max-suspicious warning for
any endpoint outside the 20–120 inch window.  (iv) Concretely, `"220"`
parses to `220 × 0.3937007874 = 86.6141732280` inches with no warnings and
`"82"` stays 82 inches. -/
theorem C5_height_parsing :
    (∀ (raw : String) (v : ℚ),
      ftinSearch (normalizeSeps (pyStrip raw.data)) = none →
      (partsOf (normalizeSeps (pyStrip raw.data))).filterMap partNum = [PyF.fin v] →
      tripleOf (parse_range_or_single raw true) =
        if 100 < v then
          (some (.fin (v * cmToIn)), some (.fin (v * cmToIn)), some (.fin (v * cmToIn)))
        else (some (.fin v), some (.fin v), some (.fin v))) ∧
    (∀ raw : String, ftApplies raw = true →
      parse_range_or_single raw true = parse_range_or_single raw false) ∧
    (∀ raw : String,
      tripleOf (parse_height raw) = tripleOf (parse_range_or_single raw true) ∧
      (∀ w : PyF, (parse_height raw).mn = some w →
        (pyLt w (.fin 20) || pyGt w (.fin 120)) = true →
        Warn.heightMinSuspicious w (pyStrip raw.data) ∈ (parse_height raw).warns) ∧
      (∀ w : PyF, (parse_height raw).mx = some w →
        (pyLt w (.fin 20) || pyGt w (.fin 120)) = true →
        Warn.heightMaxSuspicious w (pyStrip raw.data) ∈ (parse_height raw).warns)) ∧
    parse_height "220" =
      ⟨some (.fin (220 * cmToIn)), some (.fin (220 * cmToIn)),
       some (.fin (220 * cmToIn)), []⟩ ∧
    (220 : ℚ) * cmToIn = 866141732280 / 10 ^ 10 ∧
    parse_height "82" = ⟨some (.fin 82), some (.fin 82), some (.fin 82), []⟩ := by
  refine ⟨?_, ?_, ?_, by with_unfolding_all rfl, by rw [cmToIn]; norm_num,
    by with_unfolding_all rfl⟩
  · intro raw v hft hvals
    have hs : pyStrip raw.data ≠ [] := by
      intro h0
      rw [h0, partsOf_normalizeSeps_nil] at hvals
      cases hvals
    unfold parse_range_or_single
    rw [← parse_range_core_strip raw.data true]
    unfold parse_range_core
    rw [pyStrip_idem, if_neg hs]
    dsimp only
    rw [hft]
    dsimp only
    rw [numericBranch_singleton _ _ true [] _ hvals]
    by_cases h100 : 100 < v
    · rw [if_pos (show (true && pyGt (PyF.fin v) (PyF.fin 100)) = true by
        simp [pyGt, pyLt, h100]), if_pos h100]
      rfl
    · rw [if_neg (show ¬ (true && pyGt (PyF.fin v) (PyF.fin 100)) = true by
        simp [pyGt, pyLt, h100]), if_neg h100]
      rfl
  · intro raw h
    rw [parse_eq_ftResult raw true h, parse_eq_ftResult raw false h]
  · intro raw
    by_cases hs : pyStrip raw.data = []
    · obtain ⟨h1, h2⟩ := parse_height_empty raw hs
      rw [h1, h2]
      exact ⟨rfl, fun w hw => by simp [Parsed.empty] at hw,
        fun w hw => by simp [Parsed.empty] at hw⟩
    · refine ⟨?_, ?_, ?_⟩
      · rw [parse_height_decomp raw hs]
        rfl
      · intro w hw hcond
        rw [parse_height_decomp raw hs] at hw ⊢
        dsimp only at hw ⊢
        rw [hw]
        refine List.mem_append_right _ ?_
        unfold heightWindowWarns
        dsimp only
        rw [if_pos hcond]
        exact List.mem_append_left _ (List.mem_cons_self _ _)
      · intro w hw hcond
        rw [parse_height_decomp raw hs] at hw ⊢
        dsimp only at hw ⊢
        rw [hw]
        refine List.mem_append_right _ ?_
        unfold heightWindowWarns
        dsimp only
        rw [if_pos hcond]
        exact List.mem_append_right _ (List.mem_cons_self _ _)

/-- Counterexample for C5's bypass wording: `"a-b-150'2"` contains the
feet-inches notation `150'2`, detected by the pattern search, yet with the
centimeter flag enabled the parser multiplies the numerically extracted
`150` by `0.3937007874` — feet-inches notation does not bypass the
conversion when the first two dash-separated parts fail to parse as
feet-inches. -/
theorem C5_counterexample :
    ftinSearch (normalizeSeps (pyStrip "a-b-150'2".data)) ≠ none ∧
    tripleOf (parse_range_or_single "a-b-150'2" false) =
      (some (.fin 150), some (.fin 150), some (.fin 150)) ∧
    tripleOf (parse_range_or_single "a-b-150'2" true) =
      (some (.fin (150 * cmToIn)), some (.fin (150 * cmToIn)),
       some (.fin (150 * cmToIn))) ∧
    (150 : ℚ) * cmToIn ≠ 150 := by
  refine ⟨by with_unfolding_all decide, by with_unfolding_all rfl,
    by with_unfolding_all rfl, ?_⟩
  rw [cmToIn]
  norm_num

/-- Witness for C5: the bare numeric `"220"` is converted (220 > 100), the
feet-inches value `"5'10"` is flag-independent, and the converted `"500"`
(196.85 inches, above the 120-inch window bound) gets the min-suspicious
warning. -/
theorem C5_witness :
    tripleOf (parse_range_or_single "220" true) =
      (some (.fin ((220 : ℚ) * cmToIn)), some (.fin ((220 : ℚ) * cmToIn)),
       some (.fin ((220 : ℚ) * cmToIn))) ∧
    parse_range_or_single "5'10" true = parse_range_or_single "5'10" false ∧
    Warn.heightMinSuspicious (.fin ((500 : ℚ) * cmToIn)) (pyStrip "500".data) ∈
      (parse_height "500").warns := by
  refine ⟨?_, C5_height_parsing.2.1 "5'10" (by with_unfolding_all rfl), ?_⟩
  · have h := C5_height_parsing.1 "220" 220 (by with_unfolding_all rfl)
      (by with_unfolding_all rfl)
    rw [h, if_pos (by norm_num)]
  · exact (C5_height_parsing.2.2.1 "500").2.1 (.fin ((500 : ℚ) * cmToIn))
      (by with_unfolding_all rfl) (by with_unfolding_all rfl)

end Builds
